import Mathlib

/-!
Shallow embedding of the XML-DSig engine in src/src/xmlsec/__init__.py
(the pyXMLSecurity core).

Modelling conventions:
  * An lxml element becomes an XTree node: tag (Clark notation, the namespace
    between braces), attribute list, optional text, optional tail, child list.
  * Byte strings become List Nat (each entry a byte value); decoded text and
    canonical XML become List Char or String.  Python 2 str conflates the two;
    the characters relevant to the claims (angle brackets, ASCII whitespace,
    the base64 alphabet) coincide at both levels.
  * In-place mutation of the callers tree becomes explicit state passing; a
    node inside the tree is addressed by its path (list of child indices),
    matching the lxml live references held across mutations (the only
    mutation on the verify path is a text write, which keeps paths stable).
  * External collaborators (hashlib, the lxml c14n serializer, the
    rsa_x509_pem parser, the filesystem, htmlentitydefs) are parameters
    collected in PyEnv.  base64 is implemented concretely below.
  * Python exceptions become an Except over PyErr; the distinct constructors
    record which kind of runtime error the interpreter would raise.
-/

/-- Kinds of runtime error the Python code can raise. -/
inductive PyErr where
  /-- an XMLSigException raised with raise -/
  | xmlSig (msg : String)
  /-- an AssertionError from an assert statement (the message object is the
      XMLSigException given as second operand of assert) -/
  | assertFail (msg : String)
  /-- a TypeError -/
  | typeErr
  /-- an AttributeError -/
  | attrErr
  /-- an IndexError -/
  | indexErr
  /-- a ValueError style failure from the external rsa_x509_pem parser -/
  | valueErr
  /-- a binascii.Error from base64 decoding -/
  | binasciiErr
  deriving DecidableEq

/-- The XML tree: models an lxml _Element (tag in Clark notation, attributes,
    leading text, trailing tail, children). -/
inductive XTree where
  | node (tag : String) (attrs : List (String × String)) (text : Option String)
         (tail : Option String) (children : List XTree)

def XTree.tag : XTree → String
  | .node g _ _ _ _ => g

def XTree.attrs : XTree → List (String × String)
  | .node _ a _ _ _ => a

def XTree.text : XTree → Option String
  | .node _ _ x _ _ => x

def XTree.tail : XTree → Option String
  | .node _ _ _ l _ => l

def XTree.children : XTree → List XTree
  | .node _ _ _ _ cs => cs

def XTree.setText (s : Option String) : XTree → XTree
  | .node g a _ l cs => .node g a s l cs

def XTree.setTail (s : Option String) : XTree → XTree
  | .node g a x _ cs => .node g a x s cs

mutual
/-- Boolean equality on trees. -/
def XTree.beq : XTree → XTree → Bool
  | .node g a x l cs, .node g' a' x' l' cs' =>
    g == g' && a == a' && x == x' && l == l' && XTree.beqList cs cs'

def XTree.beqList : List XTree → List XTree → Bool
  | [], [] => true
  | t :: ts, u :: us => XTree.beq t u && XTree.beqList ts us
  | _, _ => false
end

mutual
theorem XTree.eq_of_beq : ∀ t u : XTree, XTree.beq t u = true → t = u
  | .node g a x l cs, .node g' a' x' l' cs', h => by
    simp only [XTree.beq, Bool.and_eq_true, beq_iff_eq] at h
    obtain ⟨⟨⟨⟨h1, h2⟩, h3⟩, h4⟩, h5⟩ := h
    have := XTree.eqList_of_beqList cs cs' h5
    subst h1; subst h2; subst h3; subst h4; subst this; rfl

theorem XTree.eqList_of_beqList : ∀ ts us : List XTree, XTree.beqList ts us = true → ts = us
  | [], [], _ => rfl
  | t :: ts, u :: us, h => by
    simp only [XTree.beqList, Bool.and_eq_true] at h
    have h1 := XTree.eq_of_beq t u h.1
    have h2 := XTree.eqList_of_beqList ts us h.2
    rw [h1, h2]
  | [], _ :: _, h => by simp [XTree.beqList] at h
  | _ :: _, [], h => by simp [XTree.beqList] at h
end

mutual
theorem XTree.beq_refl : ∀ t : XTree, XTree.beq t t = true
  | .node g a x l cs => by
    simp [XTree.beq, XTree.beqList_refl cs]

theorem XTree.beqList_refl : ∀ ts : List XTree, XTree.beqList ts ts = true
  | [] => rfl
  | t :: ts => by
    simp only [XTree.beqList, Bool.and_eq_true]
    exact ⟨XTree.beq_refl t, XTree.beqList_refl ts⟩
end

instance : DecidableEq XTree := fun t u =>
  if h : XTree.beq t u then .isTrue (XTree.eq_of_beq t u h)
  else .isFalse (fun he => h (he ▸ XTree.beq_refl t))

/-! ## Paths: addressing nodes inside a tree -/

mutual
/-- Paths of all proper descendants of a node, in document (preorder) order.
    Models the node set an lxml .//x search walks. -/
def XTree.descPaths : XTree → List (List Nat)
  | .node _ _ _ _ cs => XTree.descPathsList 0 cs

def XTree.descPathsList : Nat → List XTree → List (List Nat)
  | _, [] => []
  | i, c :: rest =>
    [i] :: (XTree.descPaths c).map (fun p => i :: p) ++ XTree.descPathsList (i+1) rest
end

/-- The node a path addresses, if any. -/
def XTree.nodeAt : XTree → List Nat → Option XTree
  | t, [] => some t
  | t, i :: p =>
    match t.children.get? i with
    | some c => XTree.nodeAt c p
    | none => none

/-- Replace the i-th child. -/
def XTree.setChild : XTree → Nat → XTree → XTree
  | .node g a x l cs, i, c' => .node g a x l (cs.set i c')

/-- Apply f to the node addressed by the path (identity when the path is
    dangling).  Models an in-place mutation of that node. -/
def XTree.updateAt : List Nat → (XTree → XTree) → XTree → XTree
  | [], f, t => f t
  | i :: p, f, t =>
    match t.children.get? i with
    | some c => t.setChild i (XTree.updateAt p f c)
    | none => t

theorem XTree.nodeAt_append (t : XTree) (p q : List Nat) :
    t.nodeAt (p ++ q) = (t.nodeAt p).bind (fun e => e.nodeAt q) := by
  induction p generalizing t with
  | nil => simp [XTree.nodeAt]
  | cons i p ih =>
    simp only [List.cons_append, XTree.nodeAt]
    cases h : t.children.get? i with
    | none => simp
    | some c => simp [ih c]

theorem get?_set_of_some {α : Type _} {l : List α} {i : Nat} {b : α}
    (h : l.get? i = some b) (a : α) : (l.set i a).get? i = some a := by
  induction l generalizing i with
  | nil => simp at h
  | cons x xs ih =>
    cases i with
    | zero => simp [List.set]
    | succ n =>
      simp only [List.get?] at h
      simpa [List.set, List.get?] using ih h

theorem XTree.nodeAt_updateAt_self (t : XTree) (p : List Nat) (f : XTree → XTree)
    (e : XTree) (h : t.nodeAt p = some e) :
    (XTree.updateAt p f t).nodeAt p = some (f e) := by
  induction p generalizing t with
  | nil =>
    simp only [XTree.nodeAt] at h
    cases h
    simp [XTree.updateAt, XTree.nodeAt]
  | cons i p ih =>
    simp only [XTree.nodeAt] at h
    cases hc : t.children.get? i with
    | none => rw [hc] at h; exact absurd h (by simp)
    | some c =>
      rw [hc] at h
      simp only [XTree.updateAt, hc]
      cases t with
      | node g a x l cs =>
        simp only [XTree.children] at hc
        simp only [XTree.setChild, XTree.nodeAt, XTree.children]
        rw [get?_set_of_some hc]
        simpa using ih c h

/-! ## Searching: models of findall, find, findtext, xpath -/

/-- Paths of all proper descendants carrying the given tag, in document
    order: models t.findall with a .//tag pattern. -/
def findTagPaths (tag : String) (t : XTree) : List (List Nat) :=
  t.descPaths.filter (fun p =>
    match t.nodeAt p with
    | some e => e.tag == tag
    | none => false)

/-- Path of the first descendant with the given tag: models t.find. -/
def firstDescPath (tag : String) (t : XTree) : Option (List Nat) :=
  (findTagPaths tag t).head?

/-- First descendant with the given tag. -/
def firstDesc (tag : String) (t : XTree) : Option XTree :=
  (firstDescPath tag t).bind t.nodeAt

/-- Models t.findtext: text of the first matching element, with the empty
    string replacing missing text of a found element; none when no element
    matches. -/
def findText (tag : String) (t : XTree) : Option String :=
  (firstDesc tag t).map (fun e => e.text.getD "")

/-- All nodes of the document (the root and every descendant), document
    order: the node set an xpath //* search walks. -/
def selfDescNodes (t : XTree) : List XTree :=
  t :: t.descPaths.filterMap t.nodeAt

/-- First value bound to an attribute name: models elt.get(name). -/
def attrGet (e : XTree) (a : String) : Option String :=
  (e.attrs.find? (fun kv => kv.1 == a)).map (·.2)

theorem mem_findTagPaths {tag : String} {t : XTree} {p : List Nat}
    (h : p ∈ findTagPaths tag t) :
    p ∈ t.descPaths ∧ ∃ e, t.nodeAt p = some e ∧ e.tag = tag := by
  have h' := List.of_mem_filter h
  refine ⟨List.mem_of_mem_filter h, ?_⟩
  cases he : t.nodeAt p with
  | none => rw [he] at h'; exact absurd h' (by simp)
  | some e => rw [he] at h'; exact ⟨e, rfl, by simpa using h'⟩

theorem firstDescPath_spec {tag : String} {t : XTree} {p : List Nat}
    (h : firstDescPath tag t = some p) :
    ∃ e, t.nodeAt p = some e ∧ e.tag = tag := by
  have hm : p ∈ findTagPaths tag t := by
    unfold firstDescPath at h
    cases hl : findTagPaths tag t with
    | nil => rw [hl] at h; exact absurd h (by simp)
    | cons q qs => rw [hl] at h; simp at h; subst h; exact List.mem_cons_self q qs
  exact (mem_findTagPaths hm).2

/-! ## Character and string helpers (Python 2 str operations) -/

/-- The whitespace set of the Python str.strip method. -/
def pySpace (c : Char) : Bool :=
  c = ' ' ∨ c = '\t' ∨ c = '\n' ∨ c = '\r' ∨ c = Char.ofNat 11 ∨ c = Char.ofNat 12

/-- Python str.strip: drop leading and trailing whitespace. -/
def pyStrip (l : List Char) : List Char :=
  ((l.dropWhile pySpace).reverse.dropWhile pySpace).reverse

/-- Python str.split(sep) with a one-character separator. -/
def splitOnCh (c : Char) : List Char → List (List Char)
  | [] => [[]]
  | x :: xs =>
    let r := splitOnCh c xs
    if x = c then [] :: r
    else
      match r with
      | [] => [[x]]
      | g :: gs => (x :: g) :: gs

/-- Python str.rstrip with one strip character. -/
def rstripCh (c : Char) (l : List Char) : List Char :=
  (l.reverse.dropWhile (fun x => x = c)).reverse

/-- Python s.startswith(single character). -/
def strStartsWith (s : String) (c : Char) : Bool :=
  match s.data with
  | [] => false
  | c0 :: _ => c0 = c

/-- Python str.split() with no argument: split on whitespace runs, dropping
    empty groups. -/
def pySplitWS : List Char → List String
  | [] => []
  | c :: rest =>
    if pySpace c then pySplitWS rest
    else
      match pySplitWS rest with
      | [] => [String.mk [c]]
      | g :: gs =>
        match rest with
        | [] => [String.mk [c]]
        | r0 :: _ => if pySpace r0 then String.mk [c] :: g :: gs
                     else String.mk ([c] ++ g.data) :: gs

/-- Lowercase hexadecimal rendering of a byte list: models hexdigest. -/
def nibbleChar (n : Nat) : Char :=
  "0123456789abcdef".data.getD n '0'

def toHexLower (bs : List Nat) : String :=
  String.mk (bs.foldr (fun b acc => nibbleChar (b / 16 % 16) :: nibbleChar (b % 16) :: acc) [])

/-! ## base64 (models the Python base64 codec used by b64e and b64d) -/

def b64chars : List Char :=
  "ABCDEFGHIJKLMNOPQRSTUVWXYZabcdefghijklmnopqrstuvwxyz0123456789+/".data

def sextetChar (n : Nat) : Char :=
  match b64chars.get? n with
  | some c => c
  | none => 'A'

def charSextet (c : Char) : Nat := b64chars.indexOf c

def isB64Char (c : Char) : Bool := b64chars.contains c

/-- Encode a byte list three bytes at a time. -/
def b64encodeChunks : List Nat → List Char
  | [] => []
  | [a] => [sextetChar (a / 4), sextetChar (a % 4 * 16), '=', '=']
  | [a, b] => [sextetChar (a / 4), sextetChar (a % 4 * 16 + b / 16), sextetChar (b % 16 * 4), '=']
  | a :: b :: c :: rest =>
    sextetChar (a / 4) :: sextetChar (a % 4 * 16 + b / 16) ::
    sextetChar (b % 16 * 4 + c / 64) :: sextetChar (c % 64) :: b64encodeChunks rest

/-- Models b64e: s.encode(base64 codec) with the newlines removed (the source
    replaces every newline with the empty string).  The int branch of the
    source b64e is not exercised by the modelled paths. -/
def b64e (bs : List Nat) : String := String.mk (b64encodeChunks bs)

/-- Decode full quads; padding is accepted only on a final quad, as the
    binascii decoder does. -/
def b64decodeQuads : List Char → Option (List Nat)
  | a :: b :: c :: d :: rest =>
    if isB64Char a ∧ isB64Char b then
      if c = '=' ∧ d = '=' ∧ rest = [] then
        some [charSextet a * 4 + charSextet b / 16]
      else if isB64Char c ∧ d = '=' ∧ rest = [] then
        some [charSextet a * 4 + charSextet b / 16,
              charSextet b % 16 * 16 + charSextet c / 4]
      else if isB64Char c ∧ isB64Char d then
        (b64decodeQuads rest).map
          (fun tl => (charSextet a * 4 + charSextet b / 16) ::
                     (charSextet b % 16 * 16 + charSextet c / 4) ::
                     (charSextet c % 4 * 64 + charSextet d) :: tl)
      else none
    else none
  | [] => some []
  | _ => none

/-- Models b64d: s.decode(base64 codec), which feeds binascii.a2b_base64;
    characters outside the alphabet (newlines, blanks) are discarded before
    quad processing, and a leftover partial quad is a padding error. -/
def b64d (s : String) : Option (List Nat) :=
  b64decodeQuads (s.data.filter (fun c => isB64Char c || c = '='))

theorem isB64Char_sextetChar (n : Nat) : isB64Char (sextetChar n) = true := by
  unfold isB64Char sextetChar
  rcases h : b64chars.get? n with _ | c
  · decide
  · have : c ∈ b64chars := List.get?_mem h
    simpa [List.contains, List.elem_iff] using this

theorem sextetChar_ne_pad (n : Nat) : sextetChar n ≠ '=' := by
  intro h
  have := isB64Char_sextetChar n
  rw [h] at this
  exact absurd this (by decide)

theorem charSextet_sextetChar : ∀ n < 64, charSextet (sextetChar n) = n := by decide

/-- Every byte below 256 has both sextets below 64 where needed. -/
theorem b64_roundtrip_chunks : ∀ bs : List Nat, (∀ b ∈ bs, b < 256) →
    b64decodeQuads (b64encodeChunks bs) = some bs := by
  intro bs
  induction bs using b64encodeChunks.induct with
  | case1 => intro _; rfl
  | case2 a =>
    intro hw
    have ha : a < 256 := hw a (by simp)
    have h1 : charSextet (sextetChar (a / 4)) = a / 4 :=
      charSextet_sextetChar _ (by omega)
    have h2 : charSextet (sextetChar (a % 4 * 16)) = a % 4 * 16 :=
      charSextet_sextetChar _ (by omega)
    have k1 : a % 4 * 16 / 16 = a % 4 := by omega
    simp [b64encodeChunks, b64decodeQuads, isB64Char_sextetChar, sextetChar_ne_pad, h1, h2]
    omega
  | case3 a b =>
    intro hw
    have ha : a < 256 := hw a (by simp)
    have hb : b < 256 := hw b (by simp)
    have h1 : charSextet (sextetChar (a / 4)) = a / 4 :=
      charSextet_sextetChar _ (by omega)
    have h2 : charSextet (sextetChar (a % 4 * 16 + b / 16)) = a % 4 * 16 + b / 16 :=
      charSextet_sextetChar _ (by omega)
    have h3 : charSextet (sextetChar (b % 16 * 4)) = b % 16 * 4 :=
      charSextet_sextetChar _ (by omega)
    have k1 : (a % 4 * 16 + b / 16) / 16 = a % 4 := by omega
    have k2 : (a % 4 * 16 + b / 16) % 16 = b / 16 := by omega
    have k3 : b % 16 * 4 / 4 = b % 16 := by omega
    simp [b64encodeChunks, b64decodeQuads, isB64Char_sextetChar, sextetChar_ne_pad, h1, h2, h3]
    omega
  | case4 a b c rest ih =>
    intro hw
    have ha : a < 256 := hw a (by simp)
    have hb : b < 256 := hw b (by simp)
    have hc : c < 256 := hw c (by simp)
    have hrest : ∀ x ∈ rest, x < 256 := fun x hx => hw x (by simp [hx])
    have h1 : charSextet (sextetChar (a / 4)) = a / 4 :=
      charSextet_sextetChar _ (by omega)
    have h2 : charSextet (sextetChar (a % 4 * 16 + b / 16)) = a % 4 * 16 + b / 16 :=
      charSextet_sextetChar _ (by omega)
    have h3 : charSextet (sextetChar (b % 16 * 4 + c / 64)) = b % 16 * 4 + c / 64 :=
      charSextet_sextetChar _ (by omega)
    have h4 : charSextet (sextetChar (c % 64)) = c % 64 :=
      charSextet_sextetChar _ (by omega)
    have k1 : (a % 4 * 16 + b / 16) / 16 = a % 4 := by omega
    have k2 : (a % 4 * 16 + b / 16) % 16 = b / 16 := by omega
    have k3 : (b % 16 * 4 + c / 64) / 4 = b % 16 := by omega
    have k4 : (b % 16 * 4 + c / 64) % 4 = c / 64 := by omega
    simp [b64encodeChunks, b64decodeQuads, isB64Char_sextetChar, sextetChar_ne_pad,
          h1, h2, h3, h4, ih hrest]
    omega

theorem b64encodeChunks_all_b64 : ∀ bs : List Nat, ∀ ch ∈ b64encodeChunks bs,
    isB64Char ch = true ∨ ch = '=' := by
  intro bs
  induction bs using b64encodeChunks.induct with
  | case1 => intro ch hch; simp [b64encodeChunks] at hch
  | case2 a =>
    intro ch hch
    simp only [b64encodeChunks, List.mem_cons, List.not_mem_nil, or_false] at hch
    rcases hch with h | h | h | h
    · exact Or.inl (h ▸ isB64Char_sextetChar _)
    · exact Or.inl (h ▸ isB64Char_sextetChar _)
    · exact Or.inr h
    · exact Or.inr h
  | case3 a b =>
    intro ch hch
    simp only [b64encodeChunks, List.mem_cons, List.not_mem_nil, or_false] at hch
    rcases hch with h | h | h | h
    · exact Or.inl (h ▸ isB64Char_sextetChar _)
    · exact Or.inl (h ▸ isB64Char_sextetChar _)
    · exact Or.inl (h ▸ isB64Char_sextetChar _)
    · exact Or.inr h
  | case4 a b c rest ih =>
    intro ch hch
    simp only [b64encodeChunks, List.mem_cons] at hch
    rcases hch with h | h | h | h | h
    · exact Or.inl (h ▸ isB64Char_sextetChar _)
    · exact Or.inl (h ▸ isB64Char_sextetChar _)
    · exact Or.inl (h ▸ isB64Char_sextetChar _)
    · exact Or.inl (h ▸ isB64Char_sextetChar _)
    · exact ih ch h

theorem b64d_b64e (bs : List Nat) (h : ∀ b ∈ bs, b < 256) :
    b64d (b64e bs) = some bs := by
  unfold b64d b64e
  have hfilter : (String.mk (b64encodeChunks bs)).data.filter
      (fun c => isB64Char c || c = '=') = b64encodeChunks bs := by
    simp only [String.data]
    apply List.filter_eq_self.2
    intro ch hch
    rcases b64encodeChunks_all_b64 bs ch hch with hb | hb
    · simp [hb]
    · simp [hb]
  rw [hfilter]
  exact b64_roundtrip_chunks bs h

/-! ## Constants of the source module -/

def NS_DS : String := "http://www.w3.org/2000/09/xmldsig#"

/-- Clark notation tag: namespace between braces, then the local name. -/
def clark (ns n : String) : String := "\x7b" ++ ns ++ "\x7d" ++ n

def dsSignature : String := clark NS_DS "Signature"
def dsSignedInfo : String := clark NS_DS "SignedInfo"
def dsSignatureValue : String := clark NS_DS "SignatureValue"
def dsCanonicalizationMethod : String := clark NS_DS "CanonicalizationMethod"
def dsReference : String := clark NS_DS "Reference"
def dsTransform : String := clark NS_DS "Transform"
def dsTransforms : String := clark NS_DS "Transforms"
def dsDigestMethod : String := clark NS_DS "DigestMethod"
def dsDigestValue : String := clark NS_DS "DigestValue"
def dsKeyInfo : String := clark NS_DS "KeyInfo"
def dsX509Data : String := clark NS_DS "X509Data"
def dsX509Certificate : String := clark NS_DS "X509Certificate"
def excC14nInclusiveNamespaces : String :=
  clark "http://www.w3.org/2001/10/xml-exc-c14n#" "InclusiveNamespaces"

def TRANSFORM_ENVELOPED_SIGNATURE : String :=
  "http://www.w3.org/2000/09/xmldsig#enveloped-signature"
def TRANSFORM_C14N_EXCLUSIVE_WITH_COMMENTS : String :=
  "http://www.w3.org/2001/10/xml-exc-c14n#WithComments"
def TRANSFORM_C14N_EXCLUSIVE : String :=
  "http://www.w3.org/2001/10/xml-exc-c14n"
def TRANSFORM_C14N_INCLUSIVE : String :=
  "http://www.w3.org/TR/2001/REC-xml-c14n-20010315"
def ALGORITHM_DIGEST_SHA1 : String := "http://www.w3.org/2000/09/xmldsig#sha1"
def ALGORITHM_SIGNATURE_RSA_SHA1 : String := "http://www.w3.org/2000/09/xmldsig#rsa-sha1"

/-- SHA1 digest ASN.1 BER algorithm designator bytes (the PREFIX constant). -/
def PREFIX : List Nat :=
  [0x30, 0x21, 0x30, 0x09, 0x06, 0x05, 0x2B, 0x0E, 0x03, 0x02, 0x1A, 0x05, 0x00, 0x04, 0x14]

/-- The module level default of _id_attributes. -/
def default_id_attributes : List String := ["ID", "id"]

/-! ## The environment of external collaborators -/

/-- Parameters standing for the external modules the engine calls into:
    hashlib (by name via getattr, and directly for fingerprints), os.path
    and open, the rsa_x509_pem parser (yielding the public operation and the
    key.size() value of the parsed material), the lxml c14n serializer
    composed with utf8 decoding (exclusive flag, with_comments flag,
    optional inclusive prefix list), and the htmlentitydefs table. -/
structure PyEnv where
  hashFns : String → Option (List Char → List Nat)
  sha1Bytes : List Nat → List Nat
  isFile : String → Bool
  readFile : String → String
  parseKey : String → Option ((List Nat → List Nat) × Nat)
  serialize : Bool → Bool → Option (List String) → XTree → String
  entity : String → Option Nat

/-! ## _signed_value -/

/-- Models _signed_value: the unencrypted rsa-sha1 PKCS 1 v1.5 block
    01 FF.. 00 PREFIX data.  key_size is in bits.  The pad width follows the
    Python arithmetic: a negative width yields an empty pad, as negative
    string repetition does. -/
def signed_value (data : List Nat) (key_size : Nat) : List Nat :=
  let asn_digest := PREFIX ++ data
  let padded_size : Int := (key_size : Int) / 8 - 1
  let pad_size : Int := padded_size - asn_digest.length - 2
  let pad := [0x01] ++ List.replicate pad_size.toNat 0xFF ++ [0x00]
  pad ++ asn_digest

/-! ## _digest -/

/-- Models _digest: base64 of the digest of the named hashlib algorithm; the
    hash constructor is fetched with getattr, so an unknown name raises
    AttributeError. -/
def pyDigest (env : PyEnv) (s : List Char) (hash_alg : String) : Except PyErr String :=
  match env.hashFns hash_alg with
  | none => .error .attrErr
  | some h => .ok (b64e (h s))

/-! ## _alg -/

/-- Models _alg: the Algorithm attribute with trailing hash marks stripped. -/
def alg (elt : XTree) : Option String :=
  match attrGet elt "Algorithm" with
  | none => none
  | some uri => some (String.mk (rstripCh '#' uri.data))

/-! ## _unescape -/

def isWordChar (c : Char) : Bool :=
  ('a' ≤ c ∧ c ≤ 'z') ∨ ('A' ≤ c ∧ c ≤ 'Z') ∨ ('0' ≤ c ∧ c ≤ '9') ∨ c = '_'

def decDigit (c : Char) : Option Nat :=
  if '0' ≤ c ∧ c ≤ '9' then some (c.toNat - '0'.toNat) else none

def hexDigit (c : Char) : Option Nat :=
  if '0' ≤ c ∧ c ≤ '9' then some (c.toNat - '0'.toNat)
  else if 'a' ≤ c ∧ c ≤ 'f' then some (c.toNat - 'a'.toNat + 10)
  else if 'A' ≤ c ∧ c ≤ 'F' then some (c.toNat - 'A'.toNat + 10)
  else none

/-- Python int(s) on a compact digit string. -/
def parseDecimal (l : List Char) : Option Nat :=
  if l = [] then none
  else l.foldlM (fun acc c => (decDigit c).map (fun d => acc * 10 + d)) 0

/-- Python int(s, 16) on a compact hex digit string. -/
def parseHex (l : List Char) : Option Nat :=
  if l = [] then none
  else l.foldlM (fun acc c => (hexDigit c).map (fun d => acc * 16 + d)) 0

/-- Python unichr on a wide build accepts codepoints up to 0x10FFFF and
    raises ValueError above; the caught ValueError leaves the match as is.
    Lean Char cannot hold surrogate codepoints; those become Char.ofNat
    fallback output, a divergence no claim touches. -/
def unichrOr (n : Nat) (full : List Char) : List Char :=
  if n ≤ 0x10FFFF then [Char.ofNat n] else full

/-- The fixup inner function of _unescape, applied to a full regex match
    ampersand through semicolon; hash tells whether the optional number sign
    was present and w is the word part of the match. -/
def fixup (ent : String → Option Nat) (hash : Bool) (w : List Char) : List Char :=
  let full : List Char := '&' :: (if hash then '#' :: w else w) ++ [';']
  if hash then
    match w with
    | 'x' :: hexDigits =>
      match parseHex hexDigits with
      | some n => unichrOr n full
      | none => full
    | _ =>
      match parseDecimal w with
      | some n => unichrOr n full
      | none => full
  else
    match ent (String.mk w) with
    | some n => unichrOr n full
    | none => full

/-- Scanner for re.sub with the pattern ampersand, optional number sign, one
    or more word characters, semicolon: leftmost matches replaced by fixup,
    scanning resuming after each match.  The fuel argument only serves
    termination; every step consumes at least one character, so the wrapper
    below never reaches the fuel zero case. -/
def unescapeAux (ent : String → Option Nat) : Nat → List Char → List Char
  | 0, l => l
  | _ + 1, [] => []
  | fuel + 1, '&' :: rest =>
    let hash : Bool := match rest with | '#' :: _ => true | _ => false
    let afterHash := if hash then rest.tail else rest
    let w := afterHash.takeWhile isWordChar
    let r2 := afterHash.drop w.length
    if w = [] then '&' :: unescapeAux ent fuel rest
    else
      match r2 with
      | ';' :: tl => fixup ent hash w ++ unescapeAux ent fuel tl
      | _ => '&' :: unescapeAux ent fuel rest
  | fuel + 1, c :: rest => c :: unescapeAux ent fuel rest

/-- Models _unescape on the already decoded character sequence. -/
def unescape (ent : String → Option Nat) (l : List Char) : List Char :=
  unescapeAux ent (l.length + 1) l

/-! ## _c14n -/

/-- Models _c14n: serialize (external), decode, unescape, encode, strip,
    then the two framing assertions.  Indexing an empty string raises
    IndexError before the first assertion. -/
def c14n (env : PyEnv) (exclusive with_comments : Bool)
    (inclusive_ns : Option (List String)) (t : XTree) : Except PyErr (List Char) :=
  let cxml := env.serialize exclusive with_comments inclusive_ns t
  let u := pyStrip (unescape env.entity cxml.data)
  match u with
  | [] => .error .indexErr
  | c :: _ =>
    if c = '<' then
      if u.getLast? = some '>' then .ok u
      else .error (.assertFail "C14N buffer doesn\x27t end with \x27>\x27")
    else .error (.assertFail "C14N buffer doesn\x27t start with \x27<\x27")

/-! ## _enveloped_signature -/

def XTree.removeChild : XTree → Nat → XTree
  | .node g a x l cs, i => .node g a x l (cs.eraseIdx i)

/-- Models _enveloped_signature: find the first Signature descendant, merge
    its tail into the preceding sibling tail (or the parent text when it is
    the first child), remove it.  When no Signature descendant exists the
    None.getprevious attribute access raises; when the merge target text is
    missing, adding a str to None raises TypeError. -/
def enveloped_signature (t : XTree) : Except PyErr XTree :=
  match firstDescPath dsSignature t with
  | none => .error .attrErr
  | some sp =>
    match t.nodeAt sp with
    | none => .error .attrErr
    | some sig =>
      let pp := sp.dropLast
      let i := sp.getLastD 0
      let afterTail : Except PyErr XTree :=
        match sig.tail with
        | none => .ok t
        | some tl =>
          if i > 0 then
            match t.nodeAt (pp ++ [i - 1]) with
            | none => .error .attrErr
            | some prev =>
              match prev.tail with
              | none => .error .typeErr
              | some pt =>
                .ok (XTree.updateAt (pp ++ [i - 1]) (XTree.setTail (some (pt ++ tl))) t)
          else
            match t.nodeAt pp with
            | none => .error .attrErr
            | some parent =>
              match parent.text with
              | none => .error .typeErr
              | some px =>
                .ok (XTree.updateAt pp (XTree.setText (some (px ++ tl))) t)
      match afterTail with
      | .error e => .error e
      | .ok t1 => .ok (XTree.updateAt pp (fun n => n.removeChild i) t1)

/-! ## _transform -/

/-- A transform pipeline object is either an element or a byte string, as in
    the dynamically typed source. -/
inductive TObj where
  | el (t : XTree)
  | str (s : List Char)
  deriving DecidableEq

/-- Python string interpolation of an optional value. -/
def uriRepr : Option String → String
  | none => "None"
  | some u => u

/-- The InclusiveNamespaces PrefixList of a Transform element, split on
    whitespace; empty when the element or attribute is absent. -/
def transformPrefixes (tr : Option XTree) : List String :=
  match tr with
  | none => []
  | some trEl =>
    match firstDesc excC14nInclusiveNamespaces trEl with
    | none => []
    | some elt => pySplitWS ((attrGet elt "PrefixList").getD "").data

/-- Models _transform.  Applying the enveloped signature transform to a byte
    string reaches an int.getprevious attribute access (str.find yields an
    int); serializing a byte string with the c14n serializer raises. -/
def transform (env : PyEnv) (uri : Option String) (obj : TObj) (tr : Option XTree) :
    Except PyErr TObj :=
  if uri = some TRANSFORM_ENVELOPED_SIGNATURE then
    match obj with
    | .el t => (enveloped_signature t).map .el
    | .str _ => .error .attrErr
  else if uri = some TRANSFORM_C14N_EXCLUSIVE_WITH_COMMENTS then
    match obj with
    | .el t => (c14n env true true (some (transformPrefixes tr)) t).map .str
    | .str _ => .error .typeErr
  else if uri = some TRANSFORM_C14N_EXCLUSIVE then
    match obj with
    | .el t => (c14n env true false (some (transformPrefixes tr)) t).map .str
    | .str _ => .error .typeErr
  else if uri = some TRANSFORM_C14N_INCLUSIVE then
    match obj with
    | .el t => (c14n env false false none t).map .str
    | .str _ => .error .typeErr
  else
    .error (.xmlSig ("unknown or unimplemented transform " ++ uriRepr uri))

/-! ## _get_by_id and setID -/

/-- Models the xpath //*[attribute = value] search on the document: every
    node (root included), document order, filtered on the attribute. -/
def xpathByAttr (a v : String) (t : XTree) : List XTree :=
  (selfDescNodes t).filter (fun e => attrGet e a == some v)

/-- Models _get_by_id: try each configured id attribute name in order and
    return the first xpath hit. -/
def get_by_id (id_attributes : List String) (t : XTree) (id_v : String) : Option XTree :=
  match id_attributes with
  | [] => none
  | a :: rest =>
    match xpathByAttr a id_v t with
    | [] => get_by_id rest t id_v
    | e :: _ => some e

/-- Models setID.  The source body is a bare assignment to the name
    _id_attributes inside the function; without a global declaration that
    binds a function local, so the module level list (the second argument
    here, returned as the state after the call) is left untouched. -/
def setID (ids : List String) (id_attributes : List String) : List String :=
  id_attributes

/-! ## Reference dereferencing (the URI dispatch inside _process_references) -/

/-- The URI dispatch of _process_references: a missing, empty or bare hash
    URI selects the root of a deep copy of the document (the deep copy is
    value semantics here); a fragment URI selects the identified element in
    the copy; anything else raises; an unresolved fragment raises. -/
def deref_uri (id_attributes : List String) (t : XTree) (uri : Option String) :
    Except PyErr XTree :=
  if uri = none ∨ uri = some "#" ∨ uri = some "" then .ok t
  else
    match uri with
    | some u =>
      if strStartsWith u '#' then
        match get_by_id id_attributes t (String.mk (u.data.drop 1)) with
        | some e => .ok e
        | none =>
          .error (.xmlSig ("Unable to dereference Reference URI=\x27" ++ u ++ "\x27"))
      else .error (.xmlSig ("unknown reference " ++ u))
    | none => .error .attrErr

/-! ## _find_matching_cert and _cert -/

/-- The fingerprint normalization done inside the loop: lowercase, drop
    colons. -/
def normFp (fp : String) : String :=
  String.mk ((fp.data.map Char.toLower).filter (fun c => ¬(c = ':')))

/-- The loop body of _find_matching_cert over the X509Certificate
    descendants in document order: a missing text raises TypeError inside
    b64decode, an undecodable text raises the binascii error, the first
    matching SHA1 fingerprint wins. -/
def findCertAux (env : PyEnv) (fpNorm : String) : List XTree → Except PyErr (Option String)
  | [] => .ok none
  | cd :: rest =>
    match cd.text with
    | none => .error .typeErr
    | some pem =>
      match b64d pem with
      | none => .error .binasciiErr
      | some der =>
        if toHexLower (env.sha1Bytes der) = fpNorm then .ok (some pem)
        else findCertAux env fpNorm rest

/-- The X509Certificate descendant elements of a node, document order. -/
def certNodes (t : XTree) : List XTree :=
  (findTagPaths dsX509Certificate t).filterMap t.nodeAt

/-- Models _find_matching_cert. -/
def find_matching_cert (env : PyEnv) (t : XTree) (fp : String) :
    Except PyErr (Option String) :=
  findCertAux env (normFp fp) (certNodes t)

/-- Models _cert: filesystem path first, then fingerprint search (when the
    spec has a colon) wrapping the matched body in PEM armor, else the spec
    itself as PEM literal; nothing found is fatal. -/
def cert (env : PyEnv) (sig : XTree) (keyspec : String) : Except PyErr String :=
  let dataE : Except PyErr (Option String) :=
    if env.isFile keyspec then .ok (some (env.readFile keyspec))
    else if keyspec.data.contains ':' then
      match find_matching_cert env sig keyspec with
      | .error e => .error e
      | .ok none => .ok none
      | .ok (some cd) =>
        .ok (some ("-----BEGIN CERTIFICATE-----\n" ++ cd ++ "\n-----END CERTIFICATE-----"))
    else .ok (some keyspec)
  match dataE with
  | .error e => .error e
  | .ok none => .error (.xmlSig "Unable to find anything useful to verify with")
  | .ok (some d) => .ok d

/-! ## _process_references -/

/-- Processing of one Reference element, addressed by its absolute path rp:
    dereference the URI against the current document, run the transform
    chain, digest, and write the base64 digest into the DigestValue text of
    the original tree (the only mutation of the callers tree).  A tree
    object reaching the digest raises TypeError inside hash update; a
    missing DigestValue raises TypeError inside the debug serialization of
    None before the text write. -/
def process_one_ref (env : PyEnv) (id_attributes : List String) (t : XTree)
    (rp : List Nat) : Except PyErr XTree :=
  match t.nodeAt rp with
  | none => .error .attrErr
  | some ref =>
    let uri := attrGet ref "URI"
    match deref_uri id_attributes t uri with
    | .error e => .error e
    | .ok obj =>
      let tobjE : Except PyErr TObj :=
        (findTagPaths dsTransform ref).foldlM
          (fun o trp =>
            match ref.nodeAt trp with
            | some trEl => transform env (alg trEl) o (some trEl)
            | none => .error .attrErr)
          (TObj.el obj)
      match tobjE with
      | .error e => .error e
      | .ok tobj =>
        match firstDesc dsDigestMethod ref with
        | none => .error (.xmlSig "Unable to find DigestMethod")
        | some dm =>
          match alg dm with
          | none => .error .attrErr
          | some a =>
            match (splitOnCh '#' a.data).get? 1 with
            | none => .error .indexErr
            | some halg =>
              match tobj with
              | .el _ => .error .typeErr
              | .str s =>
                match pyDigest env s (String.mk halg) with
                | .error e => .error e
                | .ok dg =>
                  match firstDescPath dsDigestValue ref with
                  | none => .error .typeErr
                  | some dvp =>
                    .ok (XTree.updateAt (rp ++ dvp) (XTree.setText (some dg)) t)

/-- The for loop of _process_references over the Reference paths. -/
def processRefsLoop (env : PyEnv) (id_attributes : List String) :
    XTree → List (List Nat) → Except PyErr XTree
  | t, [] => .ok t
  | t, rp :: rps =>
    match process_one_ref env id_attributes t rp with
    | .error e => .error e
    | .ok t1 => processRefsLoop env id_attributes t1 rps

/-- Models _process_references for a given Signature path: run the per
    Reference processing over the Reference descendants (snapshot taken up
    front, as findall does; the digest writes do not move paths). -/
def process_references (env : PyEnv) (id_attributes : List String) (t : XTree)
    (sp : List Nat) : Except PyErr XTree :=
  match t.nodeAt sp with
  | none => .error .attrErr
  | some sig =>
    processRefsLoop env id_attributes t
      ((findTagPaths dsReference sig).map (fun rp => sp ++ rp))

/-! ## verify -/

/-- The body of the verify loop before the final comparison, for the
    Signature at path sp: resolve the certificate, recover the expected
    block through the public operation, run reference processing (the tree
    state continues with its result), canonicalize SignedInfo, digest it and
    build the padded block.  Returns the threaded tree and the two blocks
    the source compares. -/
def checkSigPre (env : PyEnv) (id_attributes : List String) (keyspec : String)
    (t : XTree) (sp : List Nat) : Except PyErr (XTree × List Nat × List Nat) :=
  match t.nodeAt sp with
  | none => .error .attrErr
  | some sig =>
    match findText dsSignatureValue sig with
    | none => .error (.assertFail "No SignatureValue")
    | some sv =>
      match cert env sig keyspec with
      | .error e => .error e
      | .ok data =>
        match env.parseKey data with
        | none => .error .valueErr
        | some (f_public, size) =>
          match b64d sv with
          | none => .error .binasciiErr
          | some svBytes =>
            let expected := f_public svBytes
            match process_references env id_attributes t sp with
            | .error e => .error e
            | .ok t' =>
              match t'.nodeAt sp with
              | none => .error .attrErr
              | some sig' =>
                match firstDesc dsSignedInfo sig' with
                | none => .error .attrErr
                | some si =>
                  match firstDesc dsCanonicalizationMethod si with
                  | none => .error .attrErr
                  | some cm =>
                    match alg cm with
                    | none => .error (.assertFail "No CanonicalizationMethod")
                    | some cm_alg =>
                      match transform env (some cm_alg) (TObj.el si) none with
                      | .error e => .error e
                      | .ok (.el _) => .error .typeErr
                      | .ok (.str sic) =>
                        match pyDigest env sic "sha1" with
                        | .error e => .error e
                        | .ok dg =>
                          match b64d dg with
                          | none => .error .binasciiErr
                          | some b_digest =>
                            let sz := size + 1
                            .ok (t', expected, signed_value b_digest sz)

/-- The verify loop over the Signature paths, threading the tree state; a
    mismatch raises the assert with the validation failure message. -/
def verifyLoop (env : PyEnv) (id_attributes : List String) (keyspec : String) :
    XTree → List (List Nat) → Except PyErr XTree
  | t, [] => .ok t
  | t, sp :: sps =>
    match checkSigPre env id_attributes keyspec t sp with
    | .error e => .error e
    | .ok (t', expected, actual) =>
      if expected = actual then verifyLoop env id_attributes keyspec t' sps
      else .error (.assertFail "Signature validation failed")

/-- Models verify: iterate document order Signature elements; on success the
    source returns True.  The final tree state is returned alongside to make
    the mutation observable. -/
def verify (env : PyEnv) (id_attributes : List String) (t : XTree) (keyspec : String) :
    Except PyErr (Bool × XTree) :=
  (verifyLoop env id_attributes keyspec t (findTagPaths dsSignature t)).map
    (fun t' => (true, t'))

/-! ## sign -/

/-- Insert a new child at the given position. -/
def XTree.insertChild : XTree → Nat → XTree → XTree
  | .node g a x l cs, i, e => .node g a x l (cs.insertIdx i e)

/-- Models lxml _Element.addnext: the element e becomes the sibling directly
    after the node at path p.  The second component is the Python value of
    the call: the lxml method body ends without a return statement, so the
    value is None. -/
def addnext (t : XTree) (p : List Nat) (e : XTree) : XTree × Option XTree :=
  match p with
  | [] => (t, none)
  | _ => (XTree.updateAt p.dropLast (fun n => n.insertChild (p.getLastD 0 + 1) e) t, none)

/-- Per Signature sign body.  After reference processing and the SignedInfo
    digest, the padded block goes through the private operation and the
    SignatureValue element is inserted directly after SignedInfo with
    addnext.  The source binds the addnext call value and calls addnext on
    it to insert KeyInfo, X509Data, X509Certificate with the certificate
    data; that value is None, so the attribute access raises AttributeError
    and the KeyInfo insertion is never reached. -/
def signOne (env : PyEnv) (id_attributes : List String)
    (key_f_private : List Nat → List Nat) (cert_data : String) (sz : Nat)
    (t : XTree) (sp : List Nat) : Except PyErr XTree :=
  match process_references env id_attributes t sp with
  | .error e => .error e
  | .ok t' =>
    match t'.nodeAt sp with
    | none => .error .attrErr
    | some sig' =>
      match firstDescPath dsSignedInfo sig' with
      | none => .error .attrErr
      | some siRel =>
        match sig'.nodeAt siRel with
        | none => .error .attrErr
        | some si =>
          match firstDesc dsCanonicalizationMethod si with
          | none => .error .attrErr
          | some cm =>
            match alg cm with
            | none => .error (.assertFail "No CanonicalizationMethod")
            | some cm_alg =>
              match transform env (some cm_alg) (TObj.el si) none with
              | .error e => .error e
              | .ok (.el _) => .error .typeErr
              | .ok (.str sic) =>
                match pyDigest env sic "sha1" with
                | .error e => .error e
                | .ok dg =>
                  match b64d dg with
                  | none => .error .binasciiErr
                  | some b_digest =>
                    let tbs := signed_value b_digest sz
                    let sv := b64e (key_f_private tbs)
                    let res := addnext t' (sp ++ siRel)
                      (.node dsSignatureValue [] (some sv) none [])
                    match res.2 with
                    | none => .error .attrErr
                    | some _ =>
                      -- dead branch: were the call value the new element,
                      -- the KeyInfo block with the certificate data would be
                      -- inserted after it here
                      .ok res.1

/-- The for loop of sign over the Signature paths. -/
def signLoop (env : PyEnv) (id_attributes : List String)
    (key_f_private : List Nat → List Nat) (cert_data : String) (sz : Nat) :
    XTree → List (List Nat) → Except PyErr XTree
  | t, [] => .ok t
  | t, sp :: sps =>
    match signOne env id_attributes key_f_private cert_data sz t sp with
    | .error e => .error e
    | .ok t1 => signLoop env id_attributes key_f_private cert_data sz t1 sps

/-- Models sign with a callable key spec (the caller supplied private key
    oracle); the file backed key spec branch resolves through the external
    parser to the same kind of callable before the loop starts. -/
def sign (env : PyEnv) (id_attributes : List String) (t : XTree)
    (key_f_private : List Nat → List Nat) (cert_file : String) :
    Except PyErr XTree :=
  let cert_data := env.readFile cert_file
  match env.parseKey cert_data with
  | none => .error .valueErr
  | some (_, size) =>
    let sz := size + 1
    signLoop env id_attributes key_f_private cert_data sz t
      (findTagPaths dsSignature t)

/-! ## Concrete instances used to exercise the model -/

/-- A concrete environment: the serializer always yields a fixed canonical
    form, the sha1 slot yields a fixed one byte digest, and the parsed key
    applies the padding construction itself so that the fixed point makes a
    valid signature. -/
def envC : PyEnv where
  hashFns := fun n => if n = "sha1" then some (fun _ => [0xAA]) else none
  sha1Bytes := fun _ => []
  isFile := fun _ => false
  readFile := fun _ => ""
  parseKey := fun _ => some (fun bs => signed_value bs 296, 295)
  serialize := fun _ _ _ _ => "<SI/>"
  entity := fun _ => none

/-- A concrete document carrying one enveloped Signature over the whole
    document, with an inclusive c14n transform chain. -/
def tC : XTree :=
  .node "Envelope" [] none none
    [ .node dsSignature [] none none
        [ .node dsSignedInfo [] none none
            [ .node dsCanonicalizationMethod [("Algorithm", TRANSFORM_C14N_INCLUSIVE)] none none []
            , .node dsReference [("URI", "")] none none
                [ .node dsTransforms [] none none
                    [ .node dsTransform [("Algorithm", TRANSFORM_C14N_INCLUSIVE)] none none [] ]
                , .node dsDigestMethod [("Algorithm", ALGORITHM_DIGEST_SHA1)] none none []
                , .node dsDigestValue [] none none []
                ]
            ]
        , .node dsSignatureValue [] (some "qg==") none []
        ]
    ]

/-- tC after verification: the DigestValue text has been overwritten with
    the recomputed digest. -/
def tCafter : XTree :=
  .node "Envelope" [] none none
    [ .node dsSignature [] none none
        [ .node dsSignedInfo [] none none
            [ .node dsCanonicalizationMethod [("Algorithm", TRANSFORM_C14N_INCLUSIVE)] none none []
            , .node dsReference [("URI", "")] none none
                [ .node dsTransforms [] none none
                    [ .node dsTransform [("Algorithm", TRANSFORM_C14N_INCLUSIVE)] none none [] ]
                , .node dsDigestMethod [("Algorithm", ALGORITHM_DIGEST_SHA1)] none none []
                , .node dsDigestValue [] (some "qg==") none []
                ]
            ]
        , .node dsSignatureValue [] (some "qg==") none []
        ]
    ]

/-! ## Claim C2: the padded block layout and length -/

/-- C2.  For every digest byte string and key size in bits leaving a non
    negative pad, _signed_value returns exactly 0x01, then 0xFF repeated
    pad_size times, then 0x00, then the fixed fifteen byte ASN.1 SHA1
    DigestInfo marker, then the digest, and the block length is exactly
    key_size divided by eight (floor) minus one. -/
theorem signed_value_layout (data : List Nat) (key_size : Nat)
    (h : 18 + data.length ≤ key_size / 8) :
    signed_value data key_size =
      [0x01] ++ List.replicate (key_size / 8 - 18 - data.length) 0xFF ++ [0x00]
        ++ PREFIX ++ data ∧
    (signed_value data key_size).length = key_size / 8 - 1 := by
  have hp : PREFIX.length = 15 := by decide
  have hcount : ((key_size : Int) / 8 - 1 - ((PREFIX ++ data).length : Int) - 2).toNat =
      key_size / 8 - 18 - data.length := by
    simp only [List.length_append, hp]
    omega
  constructor
  · simp only [signed_value]
    rw [hcount]
    simp [List.append_assoc]
  · simp only [signed_value]
    simp only [List.length_append, List.length_replicate, List.length_cons,
      List.length_nil, hcount, hp]
    omega

theorem signed_value_layout_witness :
    signed_value [0xAB] 192 =
      [0x01] ++ List.replicate 5 0xFF ++ [0x00] ++ PREFIX ++ [0xAB] ∧
    (signed_value [0xAB] 192).length = 23 := by
  have h := signed_value_layout [0xAB] 192 (by decide)
  simpa using h

/-! ## Claim C5: setID does not replace the search list -/

/-- C5.  The claim says a setID call replaces the process level ID attribute
    search list with the given list.  The source function body assigns to a
    function local name (no global declaration), so the module level list
    stays what it was: on the concrete input the state after the call is
    still the default list and differs from the given one. -/
theorem setID_noop :
    setID ["wsu:Id"] default_id_attributes = default_id_attributes ∧
    default_id_attributes ≠ ["wsu:Id"] :=
  ⟨rfl, by decide⟩

/-! ## Claim C7: unknown transform URIs -/

/-- C7.  Any transform algorithm URI other than the four recognized ones
    makes _transform raise the unknown or unimplemented transform error, for
    any pipeline object, on both paths (sign and verify share this
    function). -/
theorem transform_unknown (env : PyEnv) (uri : String) (obj : TObj) (tr : Option XTree)
    (h1 : uri ≠ TRANSFORM_ENVELOPED_SIGNATURE)
    (h2 : uri ≠ TRANSFORM_C14N_EXCLUSIVE_WITH_COMMENTS)
    (h3 : uri ≠ TRANSFORM_C14N_EXCLUSIVE)
    (h4 : uri ≠ TRANSFORM_C14N_INCLUSIVE) :
    transform env (some uri) obj tr =
      .error (.xmlSig ("unknown or unimplemented transform " ++ uri)) := by
  simp [transform, h1, h2, h3, h4, uriRepr]

theorem transform_unknown_witness :
    transform envC (some "urn:example:xslt") (TObj.el tC) none =
      .error (.xmlSig ("unknown or unimplemented transform " ++ "urn:example:xslt")) :=
  transform_unknown envC "urn:example:xslt" (TObj.el tC) none
    (by decide) (by decide) (by decide) (by decide)

/-! ## Claim C8: canonical output framing -/

/-- C8.  Whenever _c14n returns, the returned bytes are the unescaped and
    stripped serializer output, they begin with the left angle bracket and
    end with the right angle bracket; otherwise the framing (or indexing)
    failure is fatal.  No return value ever violates the framing. -/
theorem c14n_ok_framing (env : PyEnv) (exclusive with_comments : Bool)
    (incl : Option (List String)) (t : XTree) (u : List Char)
    (h : c14n env exclusive with_comments incl t = .ok u) :
    u = pyStrip (unescape env.entity (env.serialize exclusive with_comments incl t).data) ∧
    u.head? = some '<' ∧ u.getLast? = some '>' := by
  simp only [c14n] at h
  split at h
  · exact absurd h (by simp)
  · rename_i c rest heq
    split at h
    · rename_i hc
      split at h
      · rename_i hlast
        simp only [Except.ok.injEq] at h
        subst h
        refine ⟨rfl, ?_, hlast⟩
        rw [heq]
        simp [hc]
      · exact absurd h (by simp)
    · exact absurd h (by simp)

theorem c14n_ok_framing_witness :
    pyStrip (unescape envC.entity (envC.serialize false false none tC).data) =
        "<SI/>".data ∧
    ("<SI/>".data).head? = some '<' ∧ ("<SI/>".data).getLast? = some '>' := by
  have h := c14n_ok_framing envC false false none tC "<SI/>".data (by rfl)
  exact ⟨h.1.symm, h.2⟩

/-! ## Claim C6: reference dereferencing by URI shape -/

theorem get_by_id_spec (id_attributes : List String) (t : XTree) (v : String) (e : XTree)
    (h : get_by_id id_attributes t v = some e) :
    ∃ a ∈ id_attributes, attrGet e a = some v ∧ e ∈ selfDescNodes t := by
  induction id_attributes with
  | nil => simp [get_by_id] at h
  | cons a rest ih =>
    simp only [get_by_id] at h
    cases hx : xpathByAttr a v t with
    | nil =>
      rw [hx] at h
      obtain ⟨b, hb, hbv, hbm⟩ := ih h
      exact ⟨b, by simp [hb], hbv, hbm⟩
    | cons e0 es =>
      rw [hx] at h
      simp only [Option.some.injEq] at h
      subst h
      have he0 : e0 ∈ xpathByAttr a v t := by rw [hx]; exact List.mem_cons_self e0 es
      unfold xpathByAttr at he0
      have h1 := List.mem_of_mem_filter he0
      have h2 := List.of_mem_filter he0
      exact ⟨a, by simp, by simpa using h2, h1⟩

/-- C6.  Dereferencing dispatches on the URI shape: missing, empty or bare
    hash selects the (deep copied) document root; a fragment selects the
    element carrying a configured ID attribute with the fragment value
    inside the (deep copied) document, and a miss there is fatal; any other
    URI is the fatal unknown reference error. -/
theorem deref_uri_cases (id_attributes : List String) (t : XTree) :
    (deref_uri id_attributes t none = .ok t ∧
     deref_uri id_attributes t (some "") = .ok t ∧
     deref_uri id_attributes t (some "#") = .ok t) ∧
    (∀ u : String, strStartsWith u '#' = true → u ≠ "#" →
      (∀ e, deref_uri id_attributes t (some u) = .ok e →
        ∃ a ∈ id_attributes,
          attrGet e a = some (String.mk (u.data.drop 1)) ∧ e ∈ selfDescNodes t) ∧
      (get_by_id id_attributes t (String.mk (u.data.drop 1)) = none →
        deref_uri id_attributes t (some u) =
          .error (.xmlSig ("Unable to dereference Reference URI=\x27" ++ u ++ "\x27")))) ∧
    (∀ u : String, strStartsWith u '#' = false → u ≠ "" →
      deref_uri id_attributes t (some u) =
        .error (.xmlSig ("unknown reference " ++ u))) := by
  refine ⟨⟨by simp [deref_uri], by simp [deref_uri], by simp [deref_uri]⟩, ?_, ?_⟩
  · intro u hsw hne
    have hne' : u ≠ "" := by
      intro he
      rw [he] at hsw
      exact absurd hsw (by decide)
    have hcond : ¬((some u : Option String) = none ∨ (some u : Option String) = some "#" ∨
        (some u : Option String) = some "") := by
      simp [hne, hne']
    constructor
    · intro e he
      simp only [deref_uri, if_neg hcond, hsw, if_pos] at he
      cases hg : get_by_id id_attributes t (String.mk (u.data.drop 1)) with
      | none => rw [hg] at he; exact absurd he (by simp)
      | some e0 =>
        rw [hg] at he
        simp only [Except.ok.injEq] at he
        subst he
        exact get_by_id_spec id_attributes t _ e0 hg
    · intro hg
      simp only [deref_uri, if_neg hcond, hsw, if_pos, hg]
  · intro u hsw hne
    have hcond : ¬((some u : Option String) = none ∨ (some u : Option String) = some "#" ∨
        (some u : Option String) = some "") := by
      have hne2 : u ≠ "#" := by
        intro he
        rw [he] at hsw
        exact absurd hsw (by decide)
      simp [hne, hne2]
    simp only [deref_uri, if_neg hcond, hsw]
    simp

/-- A concrete document with identified elements. -/
def tID : XTree :=
  .node "Doc" [("ID", "a1")] none none [.node "Part" [("id", "p2")] none none []]

theorem deref_uri_cases_witness :
    deref_uri default_id_attributes tID none = .ok tID ∧
    (∃ a ∈ default_id_attributes,
      attrGet (XTree.node "Part" [("id", "p2")] none none []) a =
          some (String.mk ("#p2".data.drop 1)) ∧
      (XTree.node "Part" [("id", "p2")] none none []) ∈ selfDescNodes tID) ∧
    deref_uri default_id_attributes tID (some "cid:x") =
      .error (.xmlSig ("unknown reference " ++ "cid:x")) := by
  refine ⟨(deref_uri_cases default_id_attributes tID).1.1, ?_, ?_⟩
  · exact ((deref_uri_cases default_id_attributes tID).2.1 "#p2" (by decide) (by decide)).1
      (XTree.node "Part" [("id", "p2")] none none []) (by rfl)
  · exact (deref_uri_cases default_id_attributes tID).2.2 "cid:x" (by decide) (by decide)

/-! ## Claim C10: key spec resolution precedence -/

theorem findCertAux_first (env : PyEnv) (fpN : String) (nodes : List XTree) (c : String)
    (h : findCertAux env fpN nodes = .ok (some c)) :
    ∃ l1 cd l2, nodes = l1 ++ cd :: l2 ∧ cd.text = some c ∧
      (∃ der, b64d c = some der ∧ toHexLower (env.sha1Bytes der) = fpN) ∧
      ∀ x ∈ l1, ∃ tx der, x.text = some tx ∧ b64d tx = some der ∧
        toHexLower (env.sha1Bytes der) ≠ fpN := by
  induction nodes with
  | nil => simp [findCertAux] at h
  | cons cd rest ih =>
    simp only [findCertAux] at h
    cases htx : cd.text with
    | none =>
      simp only [htx] at h
      exact absurd h (by simp)
    | some pem =>
      simp only [htx] at h
      cases hder : b64d pem with
      | none =>
        simp only [hder] at h
        exact absurd h (by simp)
      | some der =>
        simp only [hder] at h
        by_cases hm : toHexLower (env.sha1Bytes der) = fpN
        · rw [if_pos hm] at h
          simp only [Except.ok.injEq, Option.some.injEq] at h
          subst h
          exact ⟨[], cd, rest, rfl, htx, ⟨der, hder, hm⟩, by simp⟩
        · rw [if_neg hm] at h
          obtain ⟨l1, cd', l2, hsplit, htx', hmatch, hprior⟩ := ih h
          refine ⟨cd :: l1, cd', l2, by simp [hsplit], htx', hmatch, ?_⟩
          intro x hx
          rcases List.mem_cons.1 hx with hx0 | hx1
          · subst hx0
            exact ⟨pem, der, htx, hder, hm⟩
          · exact hprior x hx1

/-- C10.  Key spec resolution precedence in _cert: an existing file wins
    regardless of other features of the string; otherwise a string with a
    colon is treated as a SHA1 fingerprint and matched (lowercased, colons
    dropped) against the first X509Certificate descendant whose decoded DER
    hashes to it, the matched body being wrapped in PEM armor, a miss being
    fatal; otherwise the string itself is the PEM literal (in particular a
    fingerprint written without colons is taken as a PEM literal, not
    searched). -/
theorem cert_resolution (env : PyEnv) (sig : XTree) (keyspec : String) :
    (env.isFile keyspec = true → cert env sig keyspec = .ok (env.readFile keyspec)) ∧
    (env.isFile keyspec = false → keyspec.data.contains ':' = true →
      (∀ c, find_matching_cert env sig keyspec = .ok (some c) →
        cert env sig keyspec =
          .ok ("-----BEGIN CERTIFICATE-----\n" ++ c ++ "\n-----END CERTIFICATE-----") ∧
        ∃ l1 cd l2, certNodes sig = l1 ++ cd :: l2 ∧ cd.text = some c ∧
          (∃ der, b64d c = some der ∧ toHexLower (env.sha1Bytes der) = normFp keyspec) ∧
          ∀ x ∈ l1, ∃ tx der, x.text = some tx ∧ b64d tx = some der ∧
            toHexLower (env.sha1Bytes der) ≠ normFp keyspec) ∧
      (find_matching_cert env sig keyspec = .ok none →
        cert env sig keyspec =
          .error (.xmlSig "Unable to find anything useful to verify with"))) ∧
    (env.isFile keyspec = false → keyspec.data.contains ':' = false →
      cert env sig keyspec = .ok keyspec) := by
  refine ⟨?_, ?_, ?_⟩
  · intro hf
    simp [cert, hf]
  · intro hf hc
    have hc' : ':' ∈ keyspec.data := by simpa using hc
    constructor
    · intro c hm
      constructor
      · simp [cert, hf, hc', hm]
      · exact findCertAux_first env (normFp keyspec) (certNodes sig) c hm
    · intro hm
      simp [cert, hf, hc', hm]
  · intro hf hc
    have hc' : ¬(':' ∈ keyspec.data) := by simpa using hc
    simp [cert, hf, hc']

/-- Environment for the fingerprint scenario: the DER hash is the DER
    itself. -/
def envFP : PyEnv :=
  { envC with sha1Bytes := fun der => der }

/-- A Signature element embedding one certificate. -/
def tCert : XTree :=
  .node dsSignature [] none none [.node dsX509Certificate [] (some "qg==") none []]

theorem cert_resolution_witness :
    cert envFP tCert "A:A" =
      .ok ("-----BEGIN CERTIFICATE-----\n" ++ "qg==" ++ "\n-----END CERTIFICATE-----") ∧
    cert envFP tCert "aa" = .ok "aa" := by
  constructor
  · exact (((cert_resolution envFP tCert "A:A").2.1 (by rfl) (by rfl)).1 "qg==" (by rfl)).1
  · exact (cert_resolution envFP tCert "aa").2.2 (by rfl) (by rfl)

/-! ## Claim C4: the enveloped signature transform -/

mutual
/-- Number of nodes carrying the tag in the subtree (the node itself
    included). -/
def countTag (tag : String) : XTree → Nat
  | .node g _ _ _ cs => (if g = tag then 1 else 0) + countTagList tag cs

def countTagList (tag : String) : List XTree → Nat
  | [] => 0
  | c :: rest => countTag tag c + countTagList tag rest
end

theorem countTag_pos {tag : String} {e : XTree} (h : e.tag = tag) :
    1 ≤ countTag tag e := by
  cases e with
  | node g a x l cs =>
    simp only [XTree.tag] at h
    simp [countTag, h]

theorem countTag_setTail (tag : String) (s : Option String) (e : XTree) :
    countTag tag (XTree.setTail s e) = countTag tag e := by
  cases e with
  | node g a x l cs => simp [XTree.setTail, countTag]

theorem countTag_setText (tag : String) (s : Option String) (e : XTree) :
    countTag tag (XTree.setText s e) = countTag tag e := by
  cases e with
  | node g a x l cs => simp [XTree.setText, countTag]

theorem get?_set_of_ne {α : Type _} (l : List α) (i j : Nat) (a : α) (h : i ≠ j) :
    (l.set i a).get? j = l.get? j := by
  induction l generalizing i j with
  | nil => simp
  | cons x xs ih =>
    cases i with
    | zero =>
      cases j with
      | zero => exact absurd rfl h
      | succ m => simp [List.set, List.get?]
    | succ n =>
      cases j with
      | zero => simp [List.set, List.get?]
      | succ m =>
        simp only [List.set, List.get?]
        exact ih n m (fun he => h (by rw [he]))

theorem get?_eraseIdx_of_lt {α : Type _} (l : List α) (i j : Nat) (h : j < i) :
    (l.eraseIdx i).get? j = l.get? j := by
  induction l generalizing i j with
  | nil => simp [List.eraseIdx]
  | cons x xs ih =>
    cases i with
    | zero => exact absurd h (by omega)
    | succ n =>
      cases j with
      | zero => simp [List.eraseIdx, List.get?]
      | succ m =>
        simp only [List.eraseIdx, List.get?]
        exact ih n m (by omega)

theorem countTagList_set (tag : String) (cs : List XTree) (i : Nat) (c u : XTree)
    (h : cs.get? i = some c) :
    countTagList tag (cs.set i u) + countTag tag c =
      countTagList tag cs + countTag tag u := by
  induction cs generalizing i with
  | nil => simp at h
  | cons x xs ih =>
    cases i with
    | zero =>
      simp only [List.get?] at h
      cases h
      simp only [List.set, countTagList]
      omega
    | succ n =>
      simp only [List.get?] at h
      simp only [List.set, countTagList]
      have := ih n h
      omega

theorem countTagList_eraseIdx (tag : String) (cs : List XTree) (i : Nat) (c : XTree)
    (h : cs.get? i = some c) :
    countTagList tag (cs.eraseIdx i) + countTag tag c = countTagList tag cs := by
  induction cs generalizing i with
  | nil => simp at h
  | cons x xs ih =>
    cases i with
    | zero =>
      simp only [List.get?] at h
      cases h
      simp only [List.eraseIdx, countTagList]
      omega
    | succ n =>
      simp only [List.get?] at h
      simp only [List.eraseIdx, countTagList]
      have := ih n h
      omega

theorem countTag_updateAt_congr (tag : String) (p : List Nat) (f : XTree → XTree)
    (hf : ∀ e, countTag tag (f e) = countTag tag e) (t : XTree) :
    countTag tag (XTree.updateAt p f t) = countTag tag t := by
  induction p generalizing t with
  | nil => exact hf t
  | cons i p ih =>
    simp only [XTree.updateAt]
    cases hc : t.children.get? i with
    | none => rfl
    | some c =>
      cases t with
      | node g a x l cs =>
        simp only [XTree.children] at hc
        simp only [XTree.setChild, countTag]
        have hset := countTagList_set tag cs i c (XTree.updateAt p f c) hc
        have hihc := ih c
        omega

theorem countTag_updateAt_removeChild (tag : String) (pp : List Nat) (i : Nat)
    (t c : XTree) (h : t.nodeAt (pp ++ [i]) = some c) :
    countTag tag (XTree.updateAt pp (fun n => n.removeChild i) t) + countTag tag c =
      countTag tag t := by
  induction pp generalizing t with
  | nil =>
    simp only [List.nil_append, XTree.nodeAt] at h
    cases hc : t.children.get? i with
    | none => rw [hc] at h; exact absurd h (by simp)
    | some c0 =>
      rw [hc] at h
      simp only [XTree.nodeAt, Option.some.injEq] at h
      subst h
      cases t with
      | node g a x l cs =>
        simp only [XTree.children] at hc
        simp only [XTree.updateAt, XTree.removeChild, countTag]
        have := countTagList_eraseIdx tag cs i c0 hc
        omega
  | cons k pp ih =>
    simp only [List.cons_append, XTree.nodeAt] at h
    cases hc : t.children.get? k with
    | none => rw [hc] at h; exact absurd h (by simp)
    | some ck =>
      rw [hc] at h
      cases t with
      | node g a x l cs =>
        simp only [XTree.children] at hc
        simp only [XTree.updateAt, XTree.children, hc, XTree.setChild, countTag]
        have hset := countTagList_set tag cs k ck
          (XTree.updateAt pp (fun n => n.removeChild i) ck) hc
        have := ih ck h
        omega

theorem XTree.updateAt_append (p q : List Nat) (f : XTree → XTree) (t : XTree) :
    XTree.updateAt (p ++ q) f t = XTree.updateAt p (XTree.updateAt q f) t := by
  induction p generalizing t with
  | nil => rfl
  | cons i p ih =>
    simp only [List.cons_append, XTree.updateAt]
    cases hc : t.children.get? i with
    | none => simp only [hc]
    | some c =>
      simp only [hc]
      rw [show p.append q = p ++ q from rfl, ih c]

theorem XTree.tail_setTail (s : Option String) (e : XTree) : (XTree.setTail s e).tail = s := by
  cases e; rfl

theorem XTree.text_setText (s : Option String) (e : XTree) : (XTree.setText s e).text = s := by
  cases e; rfl

theorem XTree.text_removeChild (e : XTree) (i : Nat) : (e.removeChild i).text = e.text := by
  cases e; rfl

theorem XTree.children_setText (s : Option String) (e : XTree) :
    (XTree.setText s e).children = e.children := by
  cases e; rfl

mutual
theorem XTree.mem_descPaths_ne_nil : ∀ t : XTree, ∀ p ∈ t.descPaths, p ≠ []
  | .node _ _ _ _ cs, p, hp => XTree.mem_descPathsList_ne_nil 0 cs p hp

theorem XTree.mem_descPathsList_ne_nil : ∀ i cs, ∀ p ∈ XTree.descPathsList i cs, p ≠ []
  | _, [], p, hp => by simp [XTree.descPathsList] at hp
  | i, c :: rest, p, hp => by
    rw [show XTree.descPathsList i (c :: rest) =
        [i] :: ((XTree.descPaths c).map (fun q => i :: q) ++ XTree.descPathsList (i+1) rest)
      from rfl] at hp
    simp only [List.mem_cons, List.mem_append, List.mem_map] at hp
    rcases hp with h | h | h
    · subst h; simp
    · obtain ⟨q, _, hq⟩ := h
      subst hq; simp
    · exact XTree.mem_descPathsList_ne_nil (i+1) rest p h
end

theorem nodeAt_updateAt_sibling (pp : List Nat) (j i : Nat) (hji : j ≠ i)
    (f : XTree → XTree) (t c : XTree) (h : t.nodeAt (pp ++ [i]) = some c) :
    (XTree.updateAt (pp ++ [j]) f t).nodeAt (pp ++ [i]) = some c := by
  induction pp generalizing t with
  | nil =>
    cases t with
    | node g a x l cs =>
      simp only [List.nil_append, XTree.nodeAt, XTree.children] at h
      simp only [List.nil_append, XTree.updateAt, XTree.children]
      cases hcj : cs.get? j with
      | none =>
        simp only [hcj, XTree.nodeAt, XTree.children]
        exact h
      | some cj =>
        simp only [hcj, XTree.setChild, XTree.nodeAt, XTree.children]
        rw [get?_set_of_ne _ _ _ _ hji]
        exact h
  | cons k pp ih =>
    cases t with
    | node g a x l cs =>
      simp only [List.cons_append, XTree.nodeAt, XTree.children] at h
      simp only [List.cons_append, XTree.updateAt, XTree.children]
      cases hck : cs.get? k with
      | none =>
        rw [hck] at h
        exact absurd h (by simp)
      | some ck =>
        rw [hck] at h
        simp only [hck, XTree.setChild, XTree.nodeAt, XTree.children]
        rw [get?_set_of_some hck]
        exact ih ck h

theorem nodeAt_setText_child (s : Option String) (e : XTree) (q : List Nat) (hq : q ≠ []) :
    (XTree.setText s e).nodeAt q = e.nodeAt q := by
  cases q with
  | nil => exact absurd rfl hq
  | cons i p =>
    cases e with
    | node g a x l cs => rfl

theorem nodeAt_updateAt_setText_child (pp : List Nat) (i : Nat) (s : Option String)
    (t c : XTree) (h : t.nodeAt (pp ++ [i]) = some c) :
    (XTree.updateAt pp (XTree.setText s) t).nodeAt (pp ++ [i]) = some c := by
  have hsplit := XTree.nodeAt_append t pp [i]
  rw [h] at hsplit
  cases hp : t.nodeAt pp with
  | none => rw [hp] at hsplit; exact absurd hsplit.symm (by simp)
  | some parent =>
    rw [hp] at hsplit
    simp only [Option.some_bind] at hsplit
    rw [XTree.nodeAt_append,
      XTree.nodeAt_updateAt_self t pp (XTree.setText s) parent hp]
    simp only [Option.some_bind]
    rw [nodeAt_setText_child s parent [i] (by simp)]
    exact hsplit.symm

theorem firstDescPath_mem {tag : String} {t : XTree} {p : List Nat}
    (h : firstDescPath tag t = some p) : p ∈ findTagPaths tag t := by
  unfold firstDescPath at h
  cases hl : findTagPaths tag t with
  | nil => rw [hl] at h; exact absurd h (by simp)
  | cons q qs =>
    rw [hl] at h
    simp only [List.head?] at h
    injection h with h
    subst h
    exact List.mem_cons_self q qs

theorem getLastD_concat_eq {α : Type _} (l : List α) (b d : α) :
    (l ++ [b]).getLastD d = b := by
  induction l with
  | nil => rfl
  | cons x xs ih =>
    cases xs with
    | nil => rfl
    | cons y ys => simpa using ih

theorem nodeAt_singleton {e c : XTree} {j : Nat} (h : e.nodeAt [j] = some c) :
    e.children.get? j = some c := by
  simp only [XTree.nodeAt] at h
  cases hg : e.children.get? j with
  | none => rw [hg] at h; exact absurd h (by simp)
  | some c0 =>
    rw [hg] at h
    simp only [XTree.nodeAt] at h
    exact h

/-- Structure of a successful enveloped signature application: the first
    Signature descendant (at parent path pp, child index i), the optional
    tail merge producing the intermediate tree t1, then the removal. -/
theorem enveloped_structure (t t' : XTree) (h : enveloped_signature t = .ok t') :
    ∃ pp i sig t1,
      firstDescPath dsSignature t = some (pp ++ [i]) ∧
      t.nodeAt (pp ++ [i]) = some sig ∧
      t' = XTree.updateAt pp (fun n => n.removeChild i) t1 ∧
      countTag dsSignature t1 = countTag dsSignature t ∧
      t1.nodeAt (pp ++ [i]) = some sig ∧
      ((sig.tail = none ∧ t1 = t) ∨
       (∃ tl j prev pt, sig.tail = some tl ∧ i = j + 1 ∧
          t.nodeAt (pp ++ [j]) = some prev ∧ prev.tail = some pt ∧
          t1 = XTree.updateAt (pp ++ [j]) (XTree.setTail (some (pt ++ tl))) t) ∨
       (∃ tl parent px, sig.tail = some tl ∧ i = 0 ∧
          t.nodeAt pp = some parent ∧ parent.text = some px ∧
          t1 = XTree.updateAt pp (XTree.setText (some (px ++ tl))) t)) := by
  simp only [enveloped_signature] at h
  cases hfd : firstDescPath dsSignature t with
  | none => rw [hfd] at h; exact absurd h (by simp)
  | some sp =>
    have hne : sp ≠ [] :=
      XTree.mem_descPaths_ne_nil t sp (mem_findTagPaths (firstDescPath_mem hfd)).1
    rcases List.eq_nil_or_concat sp with rfl | ⟨pp, i, rfl⟩
    · exact absurd rfl hne
    rw [List.concat_eq_append] at hfd
    rw [List.concat_eq_append]
    simp only [hfd] at h
    cases hnode : t.nodeAt (pp ++ [i]) with
    | none =>
      simp only [hnode] at h
      exact absurd h (by simp)
    | some sig =>
      simp only [hnode, List.dropLast_concat, getLastD_concat_eq] at h
      cases htl : sig.tail with
      | none =>
        simp only [htl] at h
        simp only [Except.ok.injEq] at h
        exact ⟨pp, i, sig, t, rfl, hnode, h.symm, rfl, hnode, Or.inl ⟨htl, rfl⟩⟩
      | some tl =>
        simp only [htl] at h
        cases i with
        | zero =>
          simp only [Nat.lt_irrefl, if_false] at h
          cases hpar : t.nodeAt pp with
          | none =>
            simp only [hpar] at h
            exact absurd h (by simp)
          | some parent =>
            simp only [hpar] at h
            cases hptxt : parent.text with
            | none =>
              simp only [hptxt] at h
              exact absurd h (by simp)
            | some px =>
              simp only [hptxt] at h
              simp only [Except.ok.injEq] at h
              refine ⟨pp, 0, sig, _, rfl, hnode, h.symm, ?_, ?_,
                Or.inr (Or.inr ⟨tl, parent, px, htl, rfl, hpar, hptxt, rfl⟩)⟩
              · exact countTag_updateAt_congr dsSignature pp _
                  (countTag_setText dsSignature _) t
              · exact nodeAt_updateAt_setText_child pp 0 _ t sig hnode
        | succ j =>
          simp only [Nat.succ_sub_one] at h
          rw [if_pos (Nat.succ_pos j)] at h
          cases hprev : t.nodeAt (pp ++ [j]) with
          | none =>
            simp only [hprev] at h
            exact absurd h (by simp)
          | some prev =>
            simp only [hprev] at h
            cases hpt : prev.tail with
            | none =>
              simp only [hpt] at h
              exact absurd h (by simp)
            | some pt =>
              simp only [hpt] at h
              simp only [Except.ok.injEq] at h
              refine ⟨pp, j + 1, sig, _, rfl, hnode, h.symm, ?_, ?_,
                Or.inr (Or.inl ⟨tl, j, prev, pt, htl, rfl, hprev, hpt, rfl⟩)⟩
              · exact countTag_updateAt_congr dsSignature _ _
                  (countTag_setTail dsSignature _) t
              · exact nodeAt_updateAt_sibling pp j (j + 1) (by omega) _ t sig hnode

/-- C4 (amended).  The enveloped signature transform removes only the first
    ds Signature descendant of the subtree (with its whole subtree): when
    the subtree holds exactly one Signature node the result holds none, but
    a second disjoint Signature survives.  The removed Signature tail is
    appended to the preceding sibling tail, or to the parent leading text
    when there is no preceding sibling. -/
theorem enveloped_signature_first_only (t t' : XTree)
    (h : enveloped_signature t = .ok t') :
    (countTag dsSignature t = 1 → countTag dsSignature t' = 0) ∧
    (∀ pp i sig tl, firstDescPath dsSignature t = some (pp ++ [i]) →
        t.nodeAt (pp ++ [i]) = some sig → sig.tail = some tl →
        (∀ j, i = j + 1 →
          ∃ prev pt, t.nodeAt (pp ++ [j]) = some prev ∧ prev.tail = some pt ∧
            ∃ prev2, t'.nodeAt (pp ++ [j]) = some prev2 ∧
              prev2.tail = some (pt ++ tl)) ∧
        (i = 0 →
          ∃ parent px, t.nodeAt pp = some parent ∧ parent.text = some px ∧
            ∃ parent2, t'.nodeAt pp = some parent2 ∧
              parent2.text = some (px ++ tl))) := by
  obtain ⟨pp0, i0, sig0, t1, hfd0, hnode0, ht', hcnt, hnode1, hbr⟩ :=
    enveloped_structure t t' h
  constructor
  · intro h1
    have htag : sig0.tag = dsSignature := by
      obtain ⟨e, he, htag⟩ := firstDescPath_spec hfd0
      rw [hnode0] at he
      injection he with he
      rw [he]
      exact htag
    have hrem := countTag_updateAt_removeChild dsSignature pp0 i0 t1 sig0 hnode1
    rw [← ht'] at hrem
    have hpos := countTag_pos htag
    omega
  · intro pp i sig tl hfd' hnode' htl'
    rw [hfd0] at hfd'
    injection hfd' with hfd'
    have hpp : pp0 = pp := by
      have := congrArg List.dropLast hfd'
      simpa using this
    have hi : i0 = i := by
      have := congrArg (fun l => l.getLastD 0) hfd'
      simpa [getLastD_concat_eq] using this
    subst hpp
    subst hi
    rw [hnode0] at hnode'
    injection hnode' with hnode'
    subst hnode'
    rcases hbr with ⟨htn, _⟩ | ⟨tl2, j2, prev, pt, htl2, hij, hprev, hpt, ht1⟩ |
      ⟨tl2, parent, px, htl2, hi0, hparent, hptxt, ht1⟩
    · rw [htn] at htl'
      exact absurd htl' (by simp)
    · have htleq : some tl = some tl2 := htl'.symm.trans htl2
      injection htleq with htleq
      subst htleq
      constructor
      · intro j hj
        have hj2 : j2 = j := by omega
        subst hj2
        refine ⟨prev, pt, hprev, hpt, ?_⟩
        have happ := XTree.nodeAt_append t pp0 [j2]
        rw [hprev] at happ
        cases hpar : t.nodeAt pp0 with
        | none =>
          rw [hpar] at happ
          exact absurd happ (by simp)
        | some parent =>
          rw [hpar] at happ
          simp only [Option.some_bind] at happ
          have hgj : parent.children.get? j2 = some prev := nodeAt_singleton happ.symm
          have ht1pp : t1.nodeAt pp0 =
              some (parent.setChild j2 (XTree.setTail (some (pt ++ tl)) prev)) := by
            rw [ht1, XTree.updateAt_append pp0 [j2] _ t]
            rw [XTree.nodeAt_updateAt_self t pp0 _ parent hpar]
            congr 1
            cases parent with
            | node g a x l cs =>
              simp only [XTree.children] at hgj
              simp only [XTree.updateAt, XTree.children, hgj]
          have ht'pp : t'.nodeAt pp0 =
              some ((parent.setChild j2 (XTree.setTail (some (pt ++ tl)) prev)).removeChild i0) := by
            rw [ht']
            exact XTree.nodeAt_updateAt_self t1 pp0 _ _ ht1pp
          refine ⟨XTree.setTail (some (pt ++ tl)) prev, ?_, XTree.tail_setTail _ _⟩
          rw [XTree.nodeAt_append, ht'pp]
          simp only [Option.some_bind]
          cases parent with
          | node g a x l cs =>
            simp only [XTree.children] at hgj
            simp only [XTree.setChild, XTree.removeChild, XTree.nodeAt, XTree.children]
            rw [get?_eraseIdx_of_lt _ i0 j2 (by omega)]
            rw [get?_set_of_some hgj]
      · intro h0
        exact absurd h0 (by omega)
    · constructor
      · intro j hj
        exact absurd hj (by omega)
      · intro _
        have htleq : some tl = some tl2 := htl'.symm.trans htl2
        injection htleq with htleq
        subst htleq
        refine ⟨parent, px, hparent, hptxt, ?_⟩
        have ht1pp : t1.nodeAt pp0 = some (XTree.setText (some (px ++ tl)) parent) := by
          rw [ht1]
          exact XTree.nodeAt_updateAt_self t pp0 _ parent hparent
        have ht'pp : t'.nodeAt pp0 =
            some ((XTree.setText (some (px ++ tl)) parent).removeChild i0) := by
          rw [ht']
          exact XTree.nodeAt_updateAt_self t1 pp0 _ _ ht1pp
        refine ⟨_, ht'pp, ?_⟩
        rw [XTree.text_removeChild, XTree.text_setText]

/-- A subtree with two sibling Signature elements. -/
def tTwoSigs : XTree :=
  .node "Doc" [] none none
    [.node dsSignature [] none none [], .node dsSignature [] none none []]

/-- C4 counterexample: on a subtree with two Signature elements the
    transform succeeds yet the result still contains a Signature element, so
    the claim that the resulting tree contains no ds Signature element fails
    as stated. -/
theorem enveloped_signature_counterexample :
    enveloped_signature tTwoSigs =
      .ok (XTree.node "Doc" [] none none [XTree.node dsSignature [] none none []]) ∧
    countTag dsSignature
      (XTree.node "Doc" [] none none [XTree.node dsSignature [] none none []]) ≠ 0 := by
  constructor
  · rfl
  · decide

/-- A document with one Signature child carrying a tail, preceded by a
    sibling with a tail. -/
def tOneSig : XTree :=
  .node "Doc" [] (some "lead") none
    [.node "A" [] none (some "ta") [], .node dsSignature [] none (some "tb") []]

theorem enveloped_signature_first_only_witness :
    countTag dsSignature
      (XTree.updateAt [] (fun n => n.removeChild 1)
        (XTree.updateAt [0] (XTree.setTail (some ("ta" ++ "tb"))) tOneSig)) = 0 ∧
    (∃ prev pt, tOneSig.nodeAt ([] ++ [0]) = some prev ∧ prev.tail = some pt ∧
      ∃ prev2,
        (XTree.updateAt [] (fun n => n.removeChild 1)
          (XTree.updateAt [0] (XTree.setTail (some ("ta" ++ "tb"))) tOneSig)).nodeAt
            ([] ++ [0]) = some prev2 ∧
        prev2.tail = some (pt ++ "tb")) := by
  have h := enveloped_signature_first_only tOneSig
    (XTree.updateAt [] (fun n => n.removeChild 1)
      (XTree.updateAt [0] (XTree.setTail (some ("ta" ++ "tb"))) tOneSig)) (by rfl)
  refine ⟨h.1 (by decide), ?_⟩
  exact (h.2 [] 1 (XTree.node dsSignature [] none (some "tb") []) "tb"
    (by rfl) (by rfl) (by rfl)).1 0 rfl

/-! ## Claim C1: verify succeeds exactly when every signature equation holds -/

/-- The per signature success condition, threaded through the tree states
    the loop produces: each Signature reaches its comparison and the two
    blocks agree. -/
def sigsMatch (env : PyEnv) (id_attributes : List String) (keyspec : String) :
    XTree → List (List Nat) → Prop
  | _, [] => True
  | t, sp :: sps =>
    ∃ t' e a, checkSigPre env id_attributes keyspec t sp = .ok (t', e, a) ∧ e = a ∧
      sigsMatch env id_attributes keyspec t' sps

theorem verifyLoop_iff (env : PyEnv) (id_attributes : List String) (keyspec : String)
    (t : XTree) (l : List (List Nat)) :
    (∃ t', verifyLoop env id_attributes keyspec t l = .ok t') ↔
      sigsMatch env id_attributes keyspec t l := by
  induction l generalizing t with
  | nil => simp [verifyLoop, sigsMatch]
  | cons sp sps ih =>
    simp only [verifyLoop, sigsMatch]
    cases hc : checkSigPre env id_attributes keyspec t sp with
    | error e => simp
    | ok r =>
      obtain ⟨t1, e, a⟩ := r
      by_cases hea : e = a
      · subst hea
        simp only [if_true]
        rw [ih t1]
        constructor
        · intro hm
          exact ⟨t1, e, e, rfl, rfl, hm⟩
        · rintro ⟨t2, e2, a2, hc2, hea2, hm⟩
          simp only [Except.ok.injEq, Prod.mk.injEq] at hc2
          obtain ⟨h1, h2, h3⟩ := hc2
          subst h1
          exact hm
      · simp only [if_neg hea]
        constructor
        · rintro ⟨t', ht'⟩
          exact absurd ht' (by simp)
        · rintro ⟨t2, e2, a2, hc2, hea2, _⟩
          simp only [Except.ok.injEq, Prod.mk.injEq] at hc2
          exact absurd (hc2.2.1 ▸ hc2.2.2 ▸ hea2) hea

/-- Structural description of a successful checkSigPre run: the source of
    every intermediate value of the loop body before the comparison. -/
theorem checkSigPre_ok_spec (env : PyEnv) (id_attributes : List String)
    (keyspec : String) (t0 : XTree) (sp : List Nat) (t1 : XTree) (e a : List Nat)
    (hc : checkSigPre env id_attributes keyspec t0 sp = .ok (t1, e, a)) :
    ∃ sig sv svb certData f_public size sig2 si cm cm_alg sic dg b_digest,
      t0.nodeAt sp = some sig ∧
      findText dsSignatureValue sig = some sv ∧
      cert env sig keyspec = .ok certData ∧
      env.parseKey certData = some (f_public, size) ∧
      b64d sv = some svb ∧
      e = f_public svb ∧
      process_references env id_attributes t0 sp = .ok t1 ∧
      t1.nodeAt sp = some sig2 ∧
      firstDesc dsSignedInfo sig2 = some si ∧
      firstDesc dsCanonicalizationMethod si = some cm ∧
      alg cm = some cm_alg ∧
      transform env (some cm_alg) (TObj.el si) none = .ok (.str sic) ∧
      pyDigest env sic "sha1" = .ok dg ∧
      b64d dg = some b_digest ∧
      a = signed_value b_digest (size + 1) := by
  simp only [checkSigPre] at hc
  cases h1 : t0.nodeAt sp with
  | none =>
    simp only [h1] at hc
    exact absurd hc (by simp)
  | some sig =>
    simp only [h1] at hc
    cases h2 : findText dsSignatureValue sig with
    | none =>
      simp only [h2] at hc
      exact absurd hc (by simp)
    | some sv =>
      simp only [h2] at hc
      cases h3 : cert env sig keyspec with
      | error e0 =>
        simp only [h3] at hc
        exact absurd hc (by simp)
      | ok certData =>
        simp only [h3] at hc
        cases h4 : env.parseKey certData with
        | none =>
          simp only [h4] at hc
          exact absurd hc (by simp)
        | some pk =>
          obtain ⟨f_public, size⟩ := pk
          simp only [h4] at hc
          cases h5 : b64d sv with
          | none =>
            simp only [h5] at hc
            exact absurd hc (by simp)
          | some svb =>
            simp only [h5] at hc
            cases h6 : process_references env id_attributes t0 sp with
            | error e0 =>
              simp only [h6] at hc
              exact absurd hc (by simp)
            | ok t2 =>
              simp only [h6] at hc
              cases h7 : t2.nodeAt sp with
              | none =>
                simp only [h7] at hc
                exact absurd hc (by simp)
              | some sig2 =>
                simp only [h7] at hc
                cases h8 : firstDesc dsSignedInfo sig2 with
                | none =>
                  simp only [h8] at hc
                  exact absurd hc (by simp)
                | some si =>
                  simp only [h8] at hc
                  cases h9 : firstDesc dsCanonicalizationMethod si with
                  | none =>
                    simp only [h9] at hc
                    exact absurd hc (by simp)
                  | some cm =>
                    simp only [h9] at hc
                    cases h10 : alg cm with
                    | none =>
                      simp only [h10] at hc
                      exact absurd hc (by simp)
                    | some cm_alg =>
                      simp only [h10] at hc
                      cases h11 : transform env (some cm_alg) (TObj.el si) none with
                      | error e0 =>
                        simp only [h11] at hc
                        exact absurd hc (by simp)
                      | ok tobj =>
                        cases tobj with
                        | el e0 =>
                          simp only [h11] at hc
                          exact absurd hc (by simp)
                        | str sic =>
                          simp only [h11] at hc
                          cases h12 : pyDigest env sic "sha1" with
                          | error e0 =>
                            simp only [h12] at hc
                            exact absurd hc (by simp)
                          | ok dg =>
                            simp only [h12] at hc
                            cases h13 : b64d dg with
                            | none =>
                              simp only [h13] at hc
                              exact absurd hc (by simp)
                            | some b_digest =>
                              simp only [h13] at hc
                              simp only [Except.ok.injEq, Prod.mk.injEq] at hc
                              obtain ⟨hct, hce, hca⟩ := hc
                              subst hct
                              exact ⟨sig, sv, svb, certData, f_public, size, sig2, si,
                                cm, cm_alg, sic, dg, b_digest, rfl, h2, h3, h4, h5,
                                hce.symm, rfl, h7, h8, h9, h10, h11, h12, h13, hca.symm⟩

/-- C1.  verify succeeds (returning True) exactly when, for each Signature
    element in document order (each seeing the tree state the previous one
    left), the pipeline reaches the final comparison and the block recovered
    by the public key operation from the base64 decoded SignatureValue
    equals, byte for byte, the PKCS 1 v1.5 padded block built from the SHA1
    digest of the canonicalized SignedInfo; any mismatch raises the fatal
    validation failure.  The third part makes the two compared blocks
    explicit.  The hypothesis states that hash functions return bytes. -/
theorem verify_ok_iff_sigsMatch (env : PyEnv) (id_attributes : List String)
    (keyspec : String) (t : XTree)
    (hbytes : ∀ name f, env.hashFns name = some f → ∀ s, ∀ b ∈ f s, b < 256) :
    ((∃ t2, verify env id_attributes t keyspec = .ok (true, t2)) ↔
      sigsMatch env id_attributes keyspec t (findTagPaths dsSignature t)) ∧
    (∀ t0 sp sps t1 e a,
      checkSigPre env id_attributes keyspec t0 sp = .ok (t1, e, a) → e ≠ a →
      verifyLoop env id_attributes keyspec t0 (sp :: sps) =
        .error (.assertFail "Signature validation failed")) ∧
    (∀ t0 sp t1 e a,
      checkSigPre env id_attributes keyspec t0 sp = .ok (t1, e, a) →
      ∃ sig sv svb certData f_public size sig2 si cm cm_alg sic f,
        t0.nodeAt sp = some sig ∧
        findText dsSignatureValue sig = some sv ∧
        cert env sig keyspec = .ok certData ∧
        env.parseKey certData = some (f_public, size) ∧
        b64d sv = some svb ∧
        e = f_public svb ∧
        process_references env id_attributes t0 sp = .ok t1 ∧
        t1.nodeAt sp = some sig2 ∧
        firstDesc dsSignedInfo sig2 = some si ∧
        firstDesc dsCanonicalizationMethod si = some cm ∧
        alg cm = some cm_alg ∧
        transform env (some cm_alg) (TObj.el si) none = .ok (.str sic) ∧
        env.hashFns "sha1" = some f ∧
        a = signed_value (f sic) (size + 1)) := by
  refine ⟨?_, ?_, ?_⟩
  · unfold verify
    rw [← verifyLoop_iff env id_attributes keyspec t (findTagPaths dsSignature t)]
    constructor
    · rintro ⟨t2, ht2⟩
      cases hl : verifyLoop env id_attributes keyspec t (findTagPaths dsSignature t) with
      | error e => rw [hl] at ht2; exact absurd ht2 (by simp [Except.map])
      | ok t3 => exact ⟨t3, rfl⟩
    · rintro ⟨t2, ht2⟩
      exact ⟨t2, by rw [ht2]; rfl⟩
  · intro t0 sp sps t1 e a hc hne
    simp only [verifyLoop, hc, if_neg hne]
  · intro t0 sp t1 e a hc
    obtain ⟨sig, sv, svb, certData, f_public, size, sig2, si, cm, cm_alg, sic, dg, b_digest,
      k1, k2, k3, k4, k5, k6, k7, k8, k9, k10, k11, k12, k13, k14, k15⟩ :=
      checkSigPre_ok_spec env id_attributes keyspec t0 sp t1 e a hc
    unfold pyDigest at k13
    cases h14 : env.hashFns "sha1" with
    | none =>
      rw [h14] at k13
      exact absurd k13 (by simp)
    | some f =>
      rw [h14] at k13
      simp only [Except.ok.injEq] at k13
      have hb : b_digest = f sic := by
        rw [← k13] at k14
        rw [b64d_b64e (f sic) (hbytes "sha1" f h14 sic)] at k14
        injection k14 with k14
        exact k14.symm
      exact ⟨sig, sv, svb, certData, f_public, size, sig2, si, cm, cm_alg, sic, f,
        k1, k2, k3, k4, k5, k6, k7, k8, k9, k10, k11, k12, rfl, by rw [k15, hb]⟩

theorem verify_ok_iff_sigsMatch_witness :
    ∃ t2, verify envC default_id_attributes tC "PEM" = .ok (true, t2) := by
  have hbytes : ∀ name f, envC.hashFns name = some f → ∀ s, ∀ b ∈ f s, b < 256 := by
    intro name f hf s b hb
    by_cases hn : name = "sha1"
    · subst hn
      simp only [envC, if_true] at hf
      injection hf with hf
      subst hf
      simp only [List.mem_singleton] at hb
      omega
    · simp only [envC] at hf
      rw [if_neg hn] at hf
      exact absurd hf (by simp)
  apply (verify_ok_iff_sigsMatch envC default_id_attributes "PEM" tC hbytes).1.mpr
  show sigsMatch envC default_id_attributes "PEM" tC [[0]]
  exact ⟨tCafter, signed_value [0xAA] 296, signed_value [0xAA] 296, by rfl, rfl, trivial⟩

/-! ## Claim C3: what verify mutates in the callers tree -/

mutual
/-- Erase every DigestValue text in the tree: the projection under which
    two trees agree exactly when they differ at most in DigestValue texts. -/
def eraseDV : XTree → XTree
  | .node g a x l cs =>
    .node g a (if g = dsDigestValue then none else x) l (eraseDVList cs)

def eraseDVList : List XTree → List XTree
  | [] => []
  | c :: rest => eraseDV c :: eraseDVList rest
end

theorem eraseDVList_set (cs : List XTree) (i : Nat) (c u : XTree)
    (h : cs.get? i = some c) (he : eraseDV u = eraseDV c) :
    eraseDVList (cs.set i u) = eraseDVList cs := by
  induction cs generalizing i with
  | nil => simp at h
  | cons x xs ih =>
    cases i with
    | zero =>
      simp only [List.get?] at h
      injection h with h
      subst h
      simp only [List.set, eraseDVList, he]
    | succ n =>
      simp only [List.get?] at h
      simp only [List.set, eraseDVList, ih n h]

theorem eraseDV_setText {dv : XTree} (s : Option String)
    (htag : dv.tag = dsDigestValue) :
    eraseDV (XTree.setText s dv) = eraseDV dv := by
  cases dv with
  | node g a x l cs =>
    simp only [XTree.tag] at htag
    simp [XTree.setText, eraseDV, htag]

theorem eraseDV_updateAt_setText (p : List Nat) (s : Option String) (t dv : XTree)
    (hnode : t.nodeAt p = some dv) (htag : dv.tag = dsDigestValue) :
    eraseDV (XTree.updateAt p (XTree.setText s) t) = eraseDV t := by
  induction p generalizing t with
  | nil =>
    simp only [XTree.nodeAt, Option.some.injEq] at hnode
    subst hnode
    exact eraseDV_setText s htag
  | cons i p ih =>
    simp only [XTree.nodeAt] at hnode
    cases hc : t.children.get? i with
    | none =>
      rw [hc] at hnode
      exact absurd hnode (by simp)
    | some c =>
      rw [hc] at hnode
      cases t with
      | node g a x l cs =>
        simp only [XTree.children] at hc
        simp only [XTree.updateAt, XTree.children, hc, XTree.setChild, eraseDV]
        rw [eraseDVList_set cs i c _ hc (ih c hnode)]

theorem process_one_ref_eraseDV (env : PyEnv) (id_attributes : List String)
    (t : XTree) (rp : List Nat) (t2 : XTree)
    (h : process_one_ref env id_attributes t rp = .ok t2) :
    eraseDV t2 = eraseDV t := by
  simp only [process_one_ref] at h
  cases h1 : t.nodeAt rp with
  | none =>
    simp only [h1] at h
    exact absurd h (by simp)
  | some ref =>
    simp only [h1] at h
    cases h2 : deref_uri id_attributes t (attrGet ref "URI") with
    | error e0 =>
      simp only [h2] at h
      exact absurd h (by simp)
    | ok obj =>
      simp only [h2] at h
      cases h3 : (findTagPaths dsTransform ref).foldlM
          (fun o trp =>
            match ref.nodeAt trp with
            | some trEl => transform env (alg trEl) o (some trEl)
            | none => .error .attrErr)
          (TObj.el obj) with
      | error e0 =>
        simp only [h3] at h
        exact absurd h (by simp)
      | ok tobj =>
        simp only [h3] at h
        cases h4 : firstDesc dsDigestMethod ref with
        | none =>
          simp only [h4] at h
          exact absurd h (by simp)
        | some dm =>
          simp only [h4] at h
          cases h5 : alg dm with
          | none =>
            simp only [h5] at h
            exact absurd h (by simp)
          | some a =>
            simp only [h5] at h
            cases h6 : (splitOnCh '#' a.data).get? 1 with
            | none =>
              simp only [h6] at h
              exact absurd h (by simp)
            | some halg =>
              simp only [h6] at h
              cases tobj with
              | el e0 => exact absurd h (by simp)
              | str sbytes =>
                cases h7 : pyDigest env sbytes (String.mk halg) with
                | error e0 =>
                  simp only [h7] at h
                  exact absurd h (by simp)
                | ok dg =>
                  simp only [h7] at h
                  cases h8 : firstDescPath dsDigestValue ref with
                  | none =>
                    simp only [h8] at h
                    exact absurd h (by simp)
                  | some dvp =>
                    simp only [h8] at h
                    simp only [Except.ok.injEq] at h
                    subst h
                    obtain ⟨e, he, htag⟩ := firstDescPath_spec h8
                    have hnode : t.nodeAt (rp ++ dvp) = some e := by
                      rw [XTree.nodeAt_append, h1]
                      simpa using he
                    exact eraseDV_updateAt_setText (rp ++ dvp) (some dg) t e hnode htag

theorem processRefsLoop_eraseDV (env : PyEnv) (id_attributes : List String) :
    ∀ (l : List (List Nat)) (t t2 : XTree),
      processRefsLoop env id_attributes t l = .ok t2 →
      eraseDV t2 = eraseDV t := by
  intro l
  induction l with
  | nil =>
    intro t t2 h
    simp only [processRefsLoop, Except.ok.injEq] at h
    rw [h]
  | cons rp rps ih =>
    intro t t2 h
    simp only [processRefsLoop] at h
    cases hstep : process_one_ref env id_attributes t rp with
    | error e0 =>
      simp only [hstep] at h
      exact absurd h (by simp)
    | ok t1 =>
      simp only [hstep] at h
      exact (ih t1 t2 h).trans (process_one_ref_eraseDV env id_attributes t rp t1 hstep)

theorem process_references_eraseDV (env : PyEnv) (id_attributes : List String)
    (t : XTree) (sp : List Nat) (t2 : XTree)
    (h : process_references env id_attributes t sp = .ok t2) :
    eraseDV t2 = eraseDV t := by
  simp only [process_references] at h
  cases h1 : t.nodeAt sp with
  | none =>
    simp only [h1] at h
    exact absurd h (by simp)
  | some sig =>
    simp only [h1] at h
    exact processRefsLoop_eraseDV env id_attributes _ t t2 h

theorem verifyLoop_eraseDV (env : PyEnv) (id_attributes : List String) (keyspec : String) :
    ∀ (l : List (List Nat)) (t t2 : XTree),
      verifyLoop env id_attributes keyspec t l = .ok t2 →
      eraseDV t2 = eraseDV t := by
  intro l
  induction l with
  | nil =>
    intro t t2 h
    simp only [verifyLoop, Except.ok.injEq] at h
    rw [h]
  | cons sp sps ih =>
    intro t t2 h
    simp only [verifyLoop] at h
    cases hc : checkSigPre env id_attributes keyspec t sp with
    | error e0 =>
      simp only [hc] at h
      exact absurd h (by simp)
    | ok r =>
      obtain ⟨t1, e, a⟩ := r
      simp only [hc] at h
      by_cases hea : e = a
      · rw [if_pos hea] at h
        obtain ⟨_, _, _, _, _, _, _, _, _, _, _, _, _, _, _, _, _, _, _, k7, _⟩ :=
          checkSigPre_ok_spec env id_attributes keyspec t sp t1 e a hc
        exact (ih t1 t2 h).trans
          (process_references_eraseDV env id_attributes t sp t1 k7)
      · rw [if_neg hea] at h
        exact absurd h (by simp)

/-- C3 (amended).  verify does mutate the callers tree, but only the
    DigestValue texts: reference processing writes each recomputed digest
    into the DigestValue element of the original tree.  Everything else
    (every element, attribute, other text and tail) is unchanged, as
    dereferencing and the enveloped signature transform act on deep
    copies. -/
theorem verify_mutates_only_digest_values (env : PyEnv) (id_attributes : List String)
    (t : XTree) (keyspec : String) (b : Bool) (t2 : XTree)
    (h : verify env id_attributes t keyspec = .ok (b, t2)) :
    eraseDV t2 = eraseDV t := by
  unfold verify at h
  cases hl : verifyLoop env id_attributes keyspec t (findTagPaths dsSignature t) with
  | error e0 =>
    rw [hl] at h
    exact absurd h (by simp [Except.map])
  | ok t3 =>
    rw [hl] at h
    simp only [Except.map, Except.ok.injEq, Prod.mk.injEq] at h
    rw [← h.2]
    exact verifyLoop_eraseDV env id_attributes keyspec _ t t3 hl

/-- C3 counterexample: on the concrete instance verify succeeds and returns
    a tree that differs from the input (the DigestValue text was written),
    refuting the claim that the verify path leaves the callers tree
    unchanged. -/
theorem verify_mutates_counterexample :
    verify envC default_id_attributes tC "PEM" = .ok (true, tCafter) ∧ tCafter ≠ tC := by
  constructor
  · rfl
  · decide

theorem verify_mutates_only_digest_values_witness :
    eraseDV tCafter = eraseDV tC :=
  verify_mutates_only_digest_values envC default_id_attributes tC "PEM" true tCafter
    (by rfl)

/-! ## Claim C9: the sign insertion sequence -/

/-- C9.  The claim says sign inserts a SignatureValue sibling directly
    after SignedInfo and then a KeyInfo, X509Data, X509Certificate sibling
    after that.  The source binds the value of the first addnext call and
    calls addnext on it; lxml addnext returns None (first conjunct of the
    model), so the attribute access raises AttributeError before any KeyInfo
    element is built: on a concrete signable document sign ends with the
    AttributeError instead of returning the signed tree. -/
theorem sign_addnext_code_bug :
    (∀ (t : XTree) (p : List Nat) (e : XTree), (addnext t p e).2 = none) ∧
    sign envC default_id_attributes tC (fun _ => [0]) "cert.pem" = .error .attrErr := by
  constructor
  · intro t p e
    cases p <;> rfl
  · rfl
